import Mathlib

/-!
Verification of the pmux local-development multiplexer daemon
(route-table dispatch, HTTP reverse proxy, WebSocket bypass, TCP splice,
DNS responder, TCP-listener reconciler and route-file watcher),
as a shallow embedding of the Go source in Lean 4.

The embedding follows the proxy server variant with the HTML not-found
page, the WebSocket bypass and the half-close TCP splice (package proxy),
plus internal/dns/server.go.  Go strings are Lean `String`s, Go ints are
`Nat` (all the quantities involved — ports, TTLs, DNS types — are
non-negative and far from overflow), `http.Header` is an association list
from canonical header name to the list of values.
-/

/-! ### Route records (type Route, loadRoutes defaulting) -/

/-- `Route` mirrors the Go struct: domain, upstream port, optional listen
port (0 when absent) and type string. -/
structure Route where
  domain : String
  port : Nat
  listenPort : Nat
  rtype : String
  deriving DecidableEq, Repr

/-- ASCII lowercase of one character. -/
def lowerChar (c : Char) : Char :=
  if c.toNat ≥ 65 ∧ c.toNat ≤ 90 then Char.ofNat (c.toNat + 32) else c

/-- `strings.ToLower` on the ASCII hostnames the daemon handles. -/
def lowerStr (s : String) : String :=
  ⟨s.data.map lowerChar⟩

/-- `strings.EqualFold` restricted to ASCII: case-insensitive equality via
lowercasing both sides (Go's simple Unicode fold agrees with this on
ASCII). -/
def eqFold (a b : String) : Bool :=
  lowerStr a == lowerStr b

/-! ### net.SplitHostPort and the Host-header port strip -/

/-- Index of the last `':'` in a character list, as `net.last` does. -/
def lastColonIdx (cs : List Char) : Option Nat :=
  cs.reverse.findIdx? (· = ':') |>.map (fun j => cs.length - 1 - j)

/-- Faithful model of Go `net.SplitHostPort`: split at the last colon,
handling the `[host]:port` bracket form; `none` models the error cases
(missing port, too many colons, stray brackets). -/
def splitHostPort (s : String) : Option (String × String) :=
  match lastColonIdx s.data with
  | none => none
  | some i =>
    if s.data.head? = some '[' then
      -- bracketed form [host]:port
      match s.data.findIdx? (· = ']') with
      | none => none
      | some e =>
        if e + 1 = s.data.length then none      -- missing port
        else if e + 1 = i then
          if (s.data.drop 1).contains '[' then none
          else if (s.data.drop (e + 1)).contains ']' then none
          else some (⟨(s.data.drop 1).take (e - 1)⟩, ⟨s.data.drop (i + 1)⟩)
        else none                               -- ':' not right after ']'
    else
      if (s.data.take i).contains ':' then none -- too many colons
      else if s.data.contains '[' then none
      else if s.data.contains ']' then none
      else some (⟨s.data.take i⟩, ⟨s.data.drop (i + 1)⟩)

/-- The port-stripping prologue of `handleHTTP`:
`if h, _, err := net.SplitHostPort(host); err == nil { host = h }`. -/
def stripPort (host : String) : String :=
  match splitHostPort host with
  | some (h, _) => h
  | none => host

/-! ### Route lookup (the loop in handleHTTP) -/

/-- The matching loop of `handleHTTP`: first route whose domain equals the
host case-insensitively and whose type is not `"tcp"`. -/
def firstHTTPMatch (routes : List Route) (host : String) : Option Route :=
  routes.find? (fun r => eqFold r.domain host && r.rtype != "tcp")

/-- Spec-side characterisation: `r` is a non-tcp route matching `host` and
no earlier route in the table matches. -/
def IsFirstHTTPMatch (routes : List Route) (host : String) (r : Route) : Prop :=
  ∃ pre post, routes = pre ++ r :: post ∧
    (eqFold r.domain host && r.rtype != "tcp") = true ∧
    ∀ r' ∈ pre, (eqFold r'.domain host && r'.rtype != "tcp") = false

theorem find?_isFirstMatch {routes : List Route} {host : String} {r : Route}
    (h : firstHTTPMatch routes host = some r) : IsFirstHTTPMatch routes host r := by
  induction routes with
  | nil => simp [firstHTTPMatch] at h
  | cons a l ih =>
    by_cases ha : (eqFold a.domain host && a.rtype != "tcp") = true
    · refine ⟨[], l, ?_, ?_, ?_⟩
      · simp only [firstHTTPMatch, List.find?] at h
        rw [ha] at h
        simp at h
        simp [h]
      · simp only [firstHTTPMatch, List.find?] at h
        rw [ha] at h
        simp at h
        simpa [← h] using ha
      · intro r' hr'; simp at hr'
    · simp only [firstHTTPMatch, List.find?] at h
      rw [Bool.not_eq_true] at ha
      rw [ha] at h
      obtain ⟨pre, post, hsplit, hmatch, hpre⟩ := ih h
      refine ⟨a :: pre, post, by simp [hsplit], hmatch, ?_⟩
      intro r' hr'
      rcases List.mem_cons.mp hr' with h1 | h2
      · simpa [h1] using ha
      · exact hpre r' h2

theorem exists_match_imp_find?_some {routes : List Route} {host : String}
    (h : ∃ r ∈ routes, (eqFold r.domain host && r.rtype != "tcp") = true) :
    ∃ r, firstHTTPMatch routes host = some r := by
  obtain ⟨r, hr, hm⟩ := h
  rcases hfind : firstHTTPMatch routes host with _ | r'
  · exfalso
    have := List.find?_eq_none.mp hfind r hr
    simp [hm] at this
  · exact ⟨r', rfl⟩

/-! ### http.Header as an association list -/

/-- `http.Header`: canonical header name to list of values.  The Go map is
unordered; keys here are always written in canonical form, as in the
source. -/
abbrev Headers := List (String × List String)

/-- Map lookup `h[k]` (presence of the key). -/
def hLookup (h : Headers) (k : String) : Option (List String) :=
  h.lookup k

/-- `Header.Get`: first value for the key, `""` when absent. -/
def hGet (h : Headers) (k : String) : String :=
  match hLookup h k with
  | some (v :: _) => v
  | _ => ""

/-- `Header.Set`: replace all existing values of the key with one value. -/
def hSet (h : Headers) (k v : String) : Headers :=
  h.filter (fun p => p.1 != k) ++ [(k, [v])]

theorem hLookup_hSet_self (h : Headers) (k v : String) :
    hLookup (hSet h k v) k = some [v] := by
  induction h with
  | nil => simp [hLookup, hSet, List.lookup]
  | cons p t ih =>
    by_cases hp : p.1 = k
    · simpa [hLookup, hSet, List.filter, hp] using ih
    · simp only [hLookup, hSet, List.filter] at ih ⊢
      have hne : (p.1 != k) = true := by simp [hp]
      rw [hne]
      simp only [List.cons_append, List.lookup]
      have hke : (k == p.1) = false := by simp [Ne.symm hp]
      rw [hke]
      exact ih

theorem hLookup_hSet_other (h : Headers) (k k' v : String) (hk : k' ≠ k) :
    hLookup (hSet h k v) k' = hLookup h k' := by
  induction h with
  | nil =>
    have hke : (k' == k) = false := by simp [hk]
    simp [hLookup, hSet, List.lookup, hke]
  | cons p t ih =>
    by_cases hp : p.1 = k
    · simp only [hLookup, hSet, List.filter] at ih ⊢
      have h1 : (p.1 != k) = false := by simp [hp]
      rw [h1]
      have h2 : (k' == p.1) = false := by simp [hp, hk]
      simp only [List.lookup, h2]
      exact ih
    · simp only [hLookup, hSet, List.filter] at ih ⊢
      have h1 : (p.1 != k) = true := by simp [hp]
      rw [h1]
      simp only [List.cons_append, List.lookup]
      by_cases h2 : k' = p.1
      · simp [h2]
      · have h3 : (k' == p.1) = false := by simp [h2]
        rw [h3]
        exact ih

/-! ### html/template escaping

The not-found page is rendered through Go's `html/template`, whose
contextual auto-escaper runs `htmlescaper` on interpolations in text
context and, inside the `href` attribute's pre-query URL context, the
URL normalizer followed by `htmlescaper`.  Both are modelled below; the
one deviation is that the normalizer leaves a literal percent sign
unescaped when followed by two hex digits, while this model always
escapes it (no theorem depends on a domain containing a percent
sign). -/

/-- `htmlescaper` replacement table: NUL, `"`, `&`, `'`, `<`, `>`. -/
def htmlEscChar (c : Char) : List Char :=
  if c = Char.ofNat 0 then "�".data
  else if c = '"' then "&#34;".data
  else if c = '&' then "&amp;".data
  else if c = '\'' then "&#39;".data
  else if c = '<' then "&lt;".data
  else if c = '>' then "&gt;".data
  else [c]

def htmlEsc (s : String) : String :=
  ⟨s.data.flatMap htmlEscChar⟩

/-- UTF-8 encoding of a code point, for percent-escaping. -/
def utf8Bytes (c : Char) : List Nat :=
  let n := c.toNat
  if n < 0x80 then [n]
  else if n < 0x800 then [0xC0 + n / 0x40, 0x80 + n % 0x40]
  else if n < 0x10000 then [0xE0 + n / 0x1000, 0x80 + (n / 0x40) % 0x40, 0x80 + n % 0x40]
  else [0xF0 + n / 0x40000, 0x80 + (n / 0x1000) % 0x40, 0x80 + (n / 0x40) % 0x40, 0x80 + n % 0x40]

def hexDigitLower (n : Nat) : Char :=
  if n < 10 then Char.ofNat (48 + n) else Char.ofNat (87 + n)

/-- Characters the URL processor passes through unchanged
(alphanumerics and the unreserved/sub-delimiter set; brackets are
percent-encoded). -/
def urlKeepChar (c : Char) : Bool :=
  c.isAlphanum || "!#$&*+,-./:;=?@_~".data.contains c

def urlEscChar (c : Char) : List Char :=
  if urlKeepChar c then [c]
  else (utf8Bytes c).flatMap (fun b => ['%', hexDigitLower (b / 16), hexDigitLower (b % 16)])

def urlEsc (s : String) : String :=
  ⟨s.data.flatMap urlEscChar⟩

/-- Escaping applied inside the href attribute of the route link. -/
def hrefEsc (s : String) : String :=
  htmlEsc (urlEsc s)

/-- Characters realistic virtual-host names are built from; `htmlescaper`
leaves them untouched. -/
def safeHostChar (c : Char) : Bool :=
  c.isAlphanum || c = '.' || c = '-'

def safeHost (s : String) : Bool :=
  s.data.all safeHostChar

theorem htmlEscChar_of_safe {c : Char} (h : safeHostChar c = true) :
    htmlEscChar c = [c] := by
  simp only [safeHostChar, Bool.or_eq_true, decide_eq_true_eq] at h
  rcases h with (h | h) | h
  · have hval : ('0' ≤ c ∧ c ≤ '9') ∨ ('a' ≤ c ∧ c ≤ 'z') ∨ ('A' ≤ c ∧ c ≤ 'Z') := by
      simp only [Char.isAlphanum, Char.isAlpha, Char.isDigit, Char.isUpper, Char.isLower,
        Bool.or_eq_true, Bool.and_eq_true, decide_eq_true_eq] at h
      tauto
    have hne : c ≠ Char.ofNat 0 ∧ c ≠ '"' ∧ c ≠ '&' ∧ c ≠ '\'' ∧ c ≠ '<' ∧ c ≠ '>' := by
      rcases hval with ⟨h1, h2⟩ | ⟨h1, h2⟩ | ⟨h1, h2⟩ <;>
        refine ⟨?_, ?_, ?_, ?_, ?_, ?_⟩ <;>
        · intro heq
          subst heq
          revert h1 h2
          decide
    simp [htmlEscChar, hne.1, hne.2.1, hne.2.2.1, hne.2.2.2.1, hne.2.2.2.2.1, hne.2.2.2.2.2]
  · subst h; decide
  · subst h; decide

theorem flatMap_htmlEscChar_of_safe :
    ∀ l : List Char, (∀ c ∈ l, safeHostChar c = true) → l.flatMap htmlEscChar = l := by
  intro l
  induction l with
  | nil => intro _; rfl
  | cons c t ih =>
    intro h
    simp only [List.flatMap_cons]
    rw [htmlEscChar_of_safe (h c (by simp)), ih (fun x hx => h x (by simp [hx]))]
    rfl

theorem htmlEsc_of_safe {s : String} (h : safeHost s = true) : htmlEsc s = s := by
  show String.mk (s.data.flatMap htmlEscChar) = s
  rw [flatMap_htmlEscChar_of_safe s.data (by simpa [safeHost, List.all_eq_true] using h)]

/-- Concatenation of the per-route chunks emitted by `range .Routes`. -/
def strConcat (l : List String) : String :=
  l.foldr (· ++ ·) ""

/-! ### The not-found page (serveNotFound and notFoundTmpl)

The static chunks reproduce the template source; literal braces are
written with hex escapes. -/

def notFoundHead : String :=
  "<!DOCTYPE html>\n<html lang=\"en\">\n<head>\n<meta charset=\"utf-8\">\n" ++
  "<meta name=\"viewport\" content=\"width=device-width, initial-scale=1\">\n" ++
  "<title>Porter - not found</title>\n<style>\n" ++
  "  * \x7b margin: 0; padding: 0; box-sizing: border-box; \x7d\n" ++
  "  body \x7b background: #0d1117; color: #c9d1d9; font-family: 'SF Mono', 'Cascadia Code', 'Fira Code', monospace; display: flex; justify-content: center; padding: 60px 20px; min-height: 100vh; \x7d\n" ++
  "  .container \x7b max-width: 600px; width: 100%; \x7d\n" ++
  "  h1 \x7b font-size: 1.4rem; color: #f85149; margin-bottom: 6px; \x7d\n" ++
  "  .sub \x7b color: #8b949e; font-size: 0.85rem; margin-bottom: 32px; \x7d\n" ++
  "  h2 \x7b font-size: 0.9rem; color: #8b949e; text-transform: uppercase; letter-spacing: 0.05em; margin-bottom: 12px; \x7d\n" ++
  "  .routes \x7b border: 1px solid #21262d; border-radius: 6px; overflow: hidden; \x7d\n" ++
  "  .route \x7b display: flex; justify-content: space-between; align-items: center; padding: 10px 14px; border-bottom: 1px solid #21262d; \x7d\n" ++
  "  .route:last-child \x7b border-bottom: none; \x7d\n" ++
  "  .route a \x7b color: #58a6ff; text-decoration: none; \x7d\n" ++
  "  .route a:hover \x7b text-decoration: underline; \x7d\n" ++
  "  .port \x7b color: #8b949e; font-size: 0.85rem; \x7d\n" ++
  "  .tag \x7b font-size: 0.7rem; color: #8b949e; background: #21262d; padding: 2px 6px; border-radius: 3px; margin-left: 8px; \x7d\n" ++
  "  .empty \x7b padding: 20px 14px; color: #8b949e; text-align: center; \x7d\n" ++
  "</style>\n</head>\n<body>\n<div class=\"container\">\n  <h1>not found</h1>\n" ++
  "  <p class=\"sub\">no route configured for <strong>"

def notFoundMid : String :=
  "</strong></p>\n  <h2>available routes</h2>\n  <div class=\"routes\">\n  "

def notFoundTail : String :=
  "\n  </div>\n</div>\n</body>\n</html>"

/-- The `range .Routes` body for one route. -/
def renderRoute (r : Route) : String :=
  "\n    <div class=\"route\">\n      <span>\n        " ++
  (if r.rtype == "tcp" then
    "\n          " ++ htmlEsc r.domain ++ "<span class=\"tag\">tcp</span>\n        "
   else
    "\n          <a href=\"http://" ++ hrefEsc r.domain ++ "\">" ++ htmlEsc r.domain ++
    "</a>\n        ") ++
  "\n      </span>\n      <span class=\"port\">\n        " ++
  (if r.rtype == "tcp" then
    ":" ++ toString r.listenPort ++ " &rarr; :" ++ toString r.port
   else
    ":" ++ toString r.port) ++
  "\n      </span>\n    </div>\n    "

/-- The `if .Routes` block. -/
def renderRoutesBlock (routes : List Route) : String :=
  if routes.isEmpty then
    "\n    <div class=\"empty\">no routes configured</div>\n  "
  else
    "\n    " ++ strConcat (routes.map renderRoute) ++ "\n  "

/-- Full rendering of `notFoundTmpl` on `{Host, Routes}`. -/
def renderNotFound (host : String) (routes : List Route) : String :=
  notFoundHead ++ htmlEsc host ++ notFoundMid ++ renderRoutesBlock routes ++ notFoundTail

/-! ### WebSocket upgrade detection and the upstream handshake

`websocket.IsWebSocketUpgrade` (gorilla/websocket) checks that the
`Connection` header's comma-separated token list contains `upgrade` and
the `Upgrade` header's contains `websocket`, ASCII case-insensitively. -/

/-- HTTP optional whitespace around a token. -/
def isOWS (c : Char) : Bool :=
  c = ' ' || c = '\t'

def trimOWS (cs : List Char) : List Char :=
  ((cs.dropWhile isOWS).reverse.dropWhile isOWS).reverse

/-- Split a header value at commas. -/
def splitCommaAux : List Char → List Char → List (List Char)
  | [], acc => [acc.reverse]
  | c :: rest, acc =>
    if c = ',' then acc.reverse :: splitCommaAux rest []
    else splitCommaAux rest (c :: acc)

def splitComma (cs : List Char) : List (List Char) :=
  splitCommaAux cs []

def tokenListContains (vals : List String) (target : String) : Bool :=
  vals.any (fun v => (splitComma v.data).any (fun t => eqFold ⟨trimOWS t⟩ target))

def isWebSocketUpgrade (h : Headers) : Bool :=
  tokenListContains ((hLookup h "Connection").getD []) "upgrade" &&
  tokenListContains ((hLookup h "Upgrade").getD []) "websocket"

/-- The request header built in `handleWebSocket` for the upstream dial:
`Host` and `X-Forwarded-Host` fixed to the stripped host, then
`X-Forwarded-For` from the client request if non-empty, else the client's
remote address. -/
def wsUpstreamReqHeader (clientHeaders : Headers) (remoteAddr host : String) : Headers :=
  if hGet clientHeaders "X-Forwarded-For" != "" then
    hSet [("Host", [host]), ("X-Forwarded-Host", [host])] "X-Forwarded-For"
      (hGet clientHeaders "X-Forwarded-For")
  else
    hSet [("Host", [host]), ("X-Forwarded-Host", [host])] "X-Forwarded-For" remoteAddr

/-- The handshake request `gorilla/websocket.Dialer.Dial` sends upstream:
standard upgrade headers, `Sec-WebSocket-Extensions` only when
`EnableCompression` is set (the proxy uses the zero-value `Dialer`, so it
is unset), and the caller's request header merged in — the `Host` key
becoming the request's Host rather than a header. -/
structure WSHandshake where
  reqHost : Option String
  headers : Headers
  deriving Repr

def dialerHandshake (enableCompression : Bool) (reqHeader : Headers) : WSHandshake :=
  let base : Headers :=
    [("Upgrade", ["websocket"]), ("Connection", ["Upgrade"]),
     ("Sec-WebSocket-Key", ["<nonce>"]), ("Sec-WebSocket-Version", ["13"])]
  let base :=
    if enableCompression then
      base ++ [("Sec-WebSocket-Extensions",
        ["permessage-deflate; server_no_context_takeover; client_no_context_takeover"])]
    else base
  reqHeader.foldl
    (fun acc kv =>
      if kv.1 == "Host" then { acc with reqHost := kv.2.head? }
      else { acc with headers := acc.headers ++ [kv] })
    { reqHost := none, headers := base }

/-! ### The reverse-proxy Director and the full handler -/

/-- The outgoing request as mutated by the `ReverseProxy.Director`. -/
structure OutReq where
  urlScheme : String
  urlHost : String
  headers : Headers
  deriving Repr

/-- The `Director` closure in `handleHTTP`: rewrite the URL to the
upstream, set `X-Forwarded-Host`, and set `X-Forwarded-For` only when the
key is absent. -/
def director (port : Nat) (host remoteAddr : String) (reqHeaders : Headers) : OutReq :=
  { urlScheme := "http",
    urlHost := "localhost:" ++ toString port,
    headers :=
      if (hLookup (hSet reqHeaders "X-Forwarded-Host" host) "X-Forwarded-For").isSome then
        hSet reqHeaders "X-Forwarded-Host" host
      else
        hSet (hSet reqHeaders "X-Forwarded-Host" host) "X-Forwarded-For" remoteAddr }

structure HTTPRequest where
  host : String
  headers : Headers
  remoteAddr : String
  deriving Repr

/-- What `handleHTTP` does with a request: 404 page, WebSocket relay
(bypassing the reverse-proxy machinery), or generic reverse proxy. -/
inductive HTTPOutcome where
  | notFound (status : Nat) (body : String)
  | wsRelay (upstream : String) (handshake : WSHandshake)
  | reverseProxy (upstream : String) (outReq : OutReq)
  deriving Repr

/-- `handleHTTP`: strip the port from the Host header, find the first
non-tcp route matching case-insensitively, 404 otherwise; a WebSocket
upgrade goes to `handleWebSocket`, everything else through the
`ReverseProxy` with the Director above. -/
def handleHTTP (routes : List Route) (r : HTTPRequest) : HTTPOutcome :=
  match firstHTTPMatch routes (stripPort r.host) with
  | none => .notFound 404 (renderNotFound (stripPort r.host) routes)
  | some route =>
    if isWebSocketUpgrade r.headers then
      .wsRelay ("localhost:" ++ toString route.port)
        (dialerHandshake false (wsUpstreamReqHeader r.headers r.remoteAddr (stripPort r.host)))
    else
      .reverseProxy ("localhost:" ++ toString route.port)
        (director route.port (stripPort r.host) r.remoteAddr r.headers)

/-- The upstream address an outcome targets (none for the 404 page). -/
def outcomeUpstream : HTTPOutcome → Option String
  | .notFound _ _ => none
  | .wsRelay upstream _ => some upstream
  | .reverseProxy upstream _ => some upstream

/-! ### Substring containment -/

/-- `sub` occurs contiguously in `s`. -/
def strContainsSub (s sub : String) : Prop :=
  ∃ pre post, s.data = pre ++ sub.data ++ post

theorem strContainsSub_appendl {s t sub : String} (h : strContainsSub s sub) :
    strContainsSub (s ++ t) sub := by
  obtain ⟨pre, post, hd⟩ := h
  exact ⟨pre, post ++ t.data, by simp [hd]⟩

theorem strContainsSub_appendr {s t sub : String} (h : strContainsSub t sub) :
    strContainsSub (s ++ t) sub := by
  obtain ⟨pre, post, hd⟩ := h
  exact ⟨s.data ++ pre, post, by simp [hd]⟩

theorem strContainsSub_refl (s : String) : strContainsSub s s :=
  ⟨[], [], by simp⟩

theorem strContainsSub_concat {l : List String} {x : String} (h : x ∈ l) :
    strContainsSub (strConcat l) x := by
  induction l with
  | nil => simp at h
  | cons a t ih =>
    have hc : strConcat (a :: t) = a ++ strConcat t := rfl
    rcases List.mem_cons.mp h with h1 | h2
    · rw [hc, h1]
      exact strContainsSub_appendl (strContainsSub_refl a)
    · rw [hc]
      exact strContainsSub_appendr (ih h2)

theorem strContainsSub_trans {s t u : String} (h1 : strContainsSub s t)
    (h2 : strContainsSub t u) : strContainsSub s u := by
  obtain ⟨p1, q1, hd1⟩ := h1
  obtain ⟨p2, q2, hd2⟩ := h2
  exact ⟨p1 ++ p2, q2 ++ q1, by simp [hd1, hd2]⟩

theorem renderRoute_contains_escDomain (rt : Route) :
    strContainsSub (renderRoute rt) (htmlEsc rt.domain) := by
  unfold renderRoute
  by_cases hty : (rt.rtype == "tcp") = true
  · rw [if_pos hty, if_pos hty]
    apply strContainsSub_appendl
    apply strContainsSub_appendl
    apply strContainsSub_appendl
    apply strContainsSub_appendr
    apply strContainsSub_appendl
    apply strContainsSub_appendr
    exact strContainsSub_refl _
  · rw [if_neg hty, if_neg hty]
    apply strContainsSub_appendl
    apply strContainsSub_appendl
    apply strContainsSub_appendl
    apply strContainsSub_appendr
    apply strContainsSub_appendl
    apply strContainsSub_appendr
    exact strContainsSub_refl _

theorem renderRoute_contains_tcpMapping {rt : Route} (h : rt.rtype = "tcp") :
    strContainsSub (renderRoute rt)
      (":" ++ toString rt.listenPort ++ " &rarr; :" ++ toString rt.port) := by
  unfold renderRoute
  have hty : (rt.rtype == "tcp") = true := by simp [h]
  rw [if_pos hty, if_pos hty]
  apply strContainsSub_appendl
  apply strContainsSub_appendr
  exact strContainsSub_refl _

theorem renderRoutesBlock_contains {routes : List Route} {rt : Route} (h : rt ∈ routes) :
    strContainsSub (renderRoutesBlock routes) (renderRoute rt) := by
  unfold renderRoutesBlock
  have hne : routes.isEmpty = false := by
    cases routes with
    | nil => simp at h
    | cons a t => rfl
  rw [hne]
  simp only [Bool.false_eq_true, if_false]
  apply strContainsSub_appendl
  apply strContainsSub_appendr
  exact strContainsSub_concat (List.mem_map_of_mem renderRoute h)

theorem renderNotFound_contains_route {host : String} {routes : List Route} {rt : Route}
    (h : rt ∈ routes) :
    strContainsSub (renderNotFound host routes) (renderRoute rt) := by
  unfold renderNotFound
  apply strContainsSub_appendl
  apply strContainsSub_appendr
  exact renderRoutesBlock_contains h

/-- C1 (amended): after stripping any port suffix from the Host header,
if the table has a non-tcp route whose domain matches the host
case-insensitively, the request is proxied to the upstream of the first
such route in table order; otherwise a 404 not-found page is returned
whose body contains the HTML-escaped domain string of every registered
route — the domain itself whenever it has no HTML-special characters —
with tcp routes annotated with their listen-port-to-upstream-port
mapping. -/
theorem handleHTTP_dispatch_correct (routes : List Route) (req : HTTPRequest) :
    ((∃ rt ∈ routes, (eqFold rt.domain (stripPort req.host) && rt.rtype != "tcp") = true) →
      ∃ r0, IsFirstHTTPMatch routes (stripPort req.host) r0 ∧
        outcomeUpstream (handleHTTP routes req) = some ("localhost:" ++ toString r0.port)) ∧
    ((∀ rt ∈ routes, (eqFold rt.domain (stripPort req.host) && rt.rtype != "tcp") = false) →
      handleHTTP routes req = .notFound 404 (renderNotFound (stripPort req.host) routes) ∧
      (∀ rt ∈ routes,
        strContainsSub (renderNotFound (stripPort req.host) routes) (htmlEsc rt.domain)) ∧
      (∀ rt ∈ routes, safeHost rt.domain = true →
        strContainsSub (renderNotFound (stripPort req.host) routes) rt.domain) ∧
      (∀ rt ∈ routes, rt.rtype = "tcp" →
        strContainsSub (renderNotFound (stripPort req.host) routes)
          (":" ++ toString rt.listenPort ++ " &rarr; :" ++ toString rt.port))) := by
  constructor
  · intro hex
    obtain ⟨r0, hfind⟩ := exists_match_imp_find?_some hex
    refine ⟨r0, find?_isFirstMatch hfind, ?_⟩
    cases hws : isWebSocketUpgrade req.headers <;>
      simp [handleHTTP, hfind, hws, outcomeUpstream]
  · intro hall
    have hnone : firstHTTPMatch routes (stripPort req.host) = none := by
      apply List.find?_eq_none.mpr
      intro x hx
      simp [hall x hx]
    refine ⟨?_, ?_, ?_, ?_⟩
    · unfold handleHTTP
      rw [hnone]
    · intro rt hrt
      exact strContainsSub_trans (renderNotFound_contains_route hrt)
        (renderRoute_contains_escDomain rt)
    · intro rt hrt hsafe
      have hesc : strContainsSub (renderNotFound (stripPort req.host) routes)
          (htmlEsc rt.domain) :=
        strContainsSub_trans (renderNotFound_contains_route hrt)
          (renderRoute_contains_escDomain rt)
      rwa [htmlEsc_of_safe hsafe] at hesc
    · intro rt hrt htcp
      exact strContainsSub_trans (renderNotFound_contains_route hrt)
        (renderRoute_contains_tcpMapping htcp)

/-- Witness for C1 at a concrete table and request: a request for an
unregistered host yields the 404 page listing the registered tcp route,
and a matching request is proxied to the route's upstream address. -/
theorem handleHTTP_dispatch_correct_witness :
    strContainsSub
      (renderNotFound (stripPort "x.test") [Route.mk "db.test" 5432 15432 "tcp"])
      "db.test" ∧
    outcomeUpstream (handleHTTP [Route.mk "app.test" 3000 0 "http"]
      (HTTPRequest.mk "APP.TEST:8080" [] "127.0.0.1:50000")) = some "localhost:3000" := by
  constructor
  · have h := (handleHTTP_dispatch_correct [Route.mk "db.test" 5432 15432 "tcp"]
      (HTTPRequest.mk "x.test" [] "127.0.0.1:50000")).2 (by decide)
    exact h.2.2.1 (Route.mk "db.test" 5432 15432 "tcp") (by simp) (by decide)
  · obtain ⟨r0, hfirst, hout⟩ :=
      (handleHTTP_dispatch_correct [Route.mk "app.test" 3000 0 "http"]
        (HTTPRequest.mk "APP.TEST:8080" [] "127.0.0.1:50000")).1
        ⟨Route.mk "app.test" 3000 0 "http", by simp, by decide⟩
    obtain ⟨pre, post, hsplit, -, -⟩ := hfirst
    have hr0 : r0 = Route.mk "app.test" 3000 0 "http" := by
      rcases pre with _ | ⟨a, pre'⟩
      · exact ((by simpa using hsplit.symm :
          r0 = Route.mk "app.test" 3000 0 "http" ∧ post = [])).1
      · rcases pre' with _ | _ <;> simp at hsplit
    rw [hr0] at hout
    exact hout

/-- C2: a WebSocket upgrade request matched to a route is not handed to
the generic reverse-proxy machinery; the upstream is dialed with a fresh
client handshake whose forwarded headers are exactly `Host` (carried as
the request host), `X-Forwarded-Host` and `X-Forwarded-For`, and the
upstream handshake carries no `Sec-WebSocket-Extensions` header whatever
extensions the client offered. -/
theorem handleWebSocket_strips_extensions (routes : List Route) (req : HTTPRequest)
    (route : Route)
    (hfind : firstHTTPMatch routes (stripPort req.host) = some route)
    (hws : isWebSocketUpgrade req.headers = true) :
    handleHTTP routes req = HTTPOutcome.wsRelay ("localhost:" ++ toString route.port)
      (dialerHandshake false
        (wsUpstreamReqHeader req.headers req.remoteAddr (stripPort req.host))) ∧
    (∀ upstream outReq, handleHTTP routes req ≠ HTTPOutcome.reverseProxy upstream outReq) ∧
    (∃ v, wsUpstreamReqHeader req.headers req.remoteAddr (stripPort req.host) =
        [("Host", [stripPort req.host]), ("X-Forwarded-Host", [stripPort req.host]),
         ("X-Forwarded-For", [v])] ∧
      v = (if hGet req.headers "X-Forwarded-For" != "" then
            hGet req.headers "X-Forwarded-For" else req.remoteAddr)) ∧
    hLookup (dialerHandshake false
        (wsUpstreamReqHeader req.headers req.remoteAddr (stripPort req.host))).headers
      "Sec-WebSocket-Extensions" = none ∧
    (dialerHandshake false
        (wsUpstreamReqHeader req.headers req.remoteAddr (stripPort req.host))).reqHost =
      some (stripPort req.host) := by
  have hhdr : ∃ v, wsUpstreamReqHeader req.headers req.remoteAddr (stripPort req.host) =
      [("Host", [stripPort req.host]), ("X-Forwarded-Host", [stripPort req.host]),
       ("X-Forwarded-For", [v])] ∧
      v = (if hGet req.headers "X-Forwarded-For" != "" then
            hGet req.headers "X-Forwarded-For" else req.remoteAddr) := by
    by_cases hx : (hGet req.headers "X-Forwarded-For" != "") = true
    · refine ⟨hGet req.headers "X-Forwarded-For", ?_, by rw [if_pos hx]⟩
      unfold wsUpstreamReqHeader
      rw [if_pos hx]
      rfl
    · refine ⟨req.remoteAddr, ?_, by rw [if_neg hx]⟩
      unfold wsUpstreamReqHeader
      rw [if_neg hx]
      rfl
  obtain ⟨v, hveq, hvdef⟩ := hhdr
  have h1 : handleHTTP routes req = HTTPOutcome.wsRelay ("localhost:" ++ toString route.port)
      (dialerHandshake false
        (wsUpstreamReqHeader req.headers req.remoteAddr (stripPort req.host))) := by
    simp [handleHTTP, hfind, hws]
  refine ⟨h1, ?_, ⟨v, hveq, hvdef⟩, ?_, ?_⟩
  · intro upstream outReq hcontra
    rw [h1] at hcontra
    exact HTTPOutcome.noConfusion hcontra
  · rw [hveq]
    rfl
  · rw [hveq]
    rfl

/-- Witness for C2: a concrete upgrade request offering
`permessage-deflate`; the handshake sent upstream has no
`Sec-WebSocket-Extensions` header. -/
theorem handleWebSocket_strips_extensions_witness :
    hLookup (dialerHandshake false (wsUpstreamReqHeader
        [("Connection", ["Upgrade"]), ("Upgrade", ["websocket"]),
         ("Sec-WebSocket-Extensions", ["permessage-deflate"])]
        "127.0.0.1:50000" "app.test")).headers "Sec-WebSocket-Extensions" = none := by
  have h := handleWebSocket_strips_extensions [Route.mk "app.test" 3000 0 "http"]
    (HTTPRequest.mk "app.test"
      [("Connection", ["Upgrade"]), ("Upgrade", ["websocket"]),
       ("Sec-WebSocket-Extensions", ["permessage-deflate"])]
      "127.0.0.1:50000")
    (Route.mk "app.test" 3000 0 "http") (by decide) (by decide)
  exact h.2.2.2.1

/-- C7 counterexample: the rewritten URL host is `localhost:<port>`, not
`127.0.0.1:<port>` as claimed — the Director dials `localhost`
deliberately so Go tries IPv4 and IPv6. -/
theorem director_urlHost_counterexample :
    (director 3000 "app.test" "127.0.0.1:50000" []).urlHost = "localhost:3000" ∧
    (director 3000 "app.test" "127.0.0.1:50000" []).urlHost ≠ "127.0.0.1:3000" := by
  constructor <;> decide

/-- C7 amended: for every non-upgrade request matched to a route, the
Director rewrites the URL to scheme `http` and host `localhost:<port>`,
sets `X-Forwarded-Host` to the stripped host, and sets `X-Forwarded-For`
to the client's remote address iff the incoming request carried no
`X-Forwarded-For` key (an existing value is preserved). -/
theorem director_rewrites (port : Nat) (host remoteAddr : String) (hdr : Headers) :
    (director port host remoteAddr hdr).urlScheme = "http" ∧
    (director port host remoteAddr hdr).urlHost = "localhost:" ++ toString port ∧
    hLookup (director port host remoteAddr hdr).headers "X-Forwarded-Host" = some [host] ∧
    ((hLookup hdr "X-Forwarded-For").isSome →
      hLookup (director port host remoteAddr hdr).headers "X-Forwarded-For" =
        hLookup hdr "X-Forwarded-For") ∧
    (hLookup hdr "X-Forwarded-For" = none →
      hLookup (director port host remoteAddr hdr).headers "X-Forwarded-For" =
        some [remoteAddr]) := by
  have hxff : hLookup (hSet hdr "X-Forwarded-Host" host) "X-Forwarded-For" =
      hLookup hdr "X-Forwarded-For" :=
    hLookup_hSet_other hdr "X-Forwarded-Host" "X-Forwarded-For" host (by decide)
  refine ⟨rfl, rfl, ?_, ?_, ?_⟩
  · show hLookup (if _ then _ else _) "X-Forwarded-Host" = some [host]
    by_cases hc : (hLookup (hSet hdr "X-Forwarded-Host" host) "X-Forwarded-For").isSome = true
    · rw [if_pos hc]
      exact hLookup_hSet_self hdr "X-Forwarded-Host" host
    · rw [if_neg hc]
      rw [hLookup_hSet_other _ "X-Forwarded-For" "X-Forwarded-Host" remoteAddr (by decide)]
      exact hLookup_hSet_self hdr "X-Forwarded-Host" host
  · intro hpresent
    have hc : (hLookup (hSet hdr "X-Forwarded-Host" host) "X-Forwarded-For").isSome = true := by
      rw [hxff]; exact hpresent
    show hLookup (if _ then _ else _) "X-Forwarded-For" = hLookup hdr "X-Forwarded-For"
    rw [if_pos hc]
    exact hxff
  · intro habsent
    have hc : (hLookup (hSet hdr "X-Forwarded-Host" host) "X-Forwarded-For").isSome = false := by
      rw [hxff, habsent]; rfl
    show hLookup (if _ then _ else _) "X-Forwarded-For" = some [remoteAddr]
    rw [if_neg (by simp [hc])]
    exact hLookup_hSet_self _ "X-Forwarded-For" remoteAddr

/-- Witness for C7: with no incoming `X-Forwarded-For` it is set to the
remote address; an existing value is left unchanged. -/
theorem director_rewrites_witness :
    hLookup (director 3000 "app.test" "127.0.0.1:50000" []).headers "X-Forwarded-For" =
      some ["127.0.0.1:50000"] ∧
    hLookup (director 3000 "app.test" "127.0.0.1:50000"
        [("X-Forwarded-For", ["10.0.0.1"])]).headers "X-Forwarded-For" =
      some ["10.0.0.1"] := by
  constructor
  · exact (director_rewrites 3000 "app.test" "127.0.0.1:50000" []).2.2.2.2 rfl
  · have h := (director_rewrites 3000 "app.test" "127.0.0.1:50000"
      [("X-Forwarded-For", ["10.0.0.1"])]).2.2.2.1 (by decide)
    exact h.trans (by decide)

/-! ### Listener bind addresses (New, startTCPListenerLocked)

`New` formats the HTTP/HTTPS addresses as `":<port>"`; an empty host part
in a Go listen address means the wildcard address (all interfaces).  The
TCP route listeners are bound to `"127.0.0.1:<listen_port>"`. -/

theorem digitChar_isDigit {m : Nat} (h : m < 10) : (Nat.digitChar m).isDigit = true := by
  interval_cases m <;> decide

theorem toDigitsCore_digits (fuel : Nat) :
    ∀ (n : Nat) (acc : List Char), (∀ c ∈ acc, c.isDigit = true) →
      ∀ c ∈ Nat.toDigitsCore 10 fuel n acc, c.isDigit = true := by
  induction fuel with
  | zero =>
    intro n acc hacc c hc
    exact hacc c hc
  | succ fuel ih =>
    intro n acc hacc c hc
    simp only [Nat.toDigitsCore] at hc
    by_cases hz : n / 10 = 0
    · rw [if_pos hz] at hc
      rcases List.mem_cons.mp hc with h1 | h2
      · rw [h1]
        exact digitChar_isDigit (Nat.mod_lt _ (by norm_num))
      · exact hacc c h2
    · rw [if_neg hz] at hc
      refine ih _ _ ?_ c hc
      intro c' hc'
      rcases List.mem_cons.mp hc' with h1 | h2
      · rw [h1]
        exact digitChar_isDigit (Nat.mod_lt _ (by norm_num))
      · exact hacc c' h2

theorem repr_chars_isDigit (n : Nat) : ∀ c ∈ (toString n).data, c.isDigit = true := by
  intro c hc
  exact toDigitsCore_digits (n + 1) n [] (by simp) c hc

theorem isDigit_not_special {c : Char} (h : c.isDigit = true) :
    c ≠ ':' ∧ c ≠ '[' ∧ c ≠ ']' := by
  refine ⟨?_, ?_, ?_⟩ <;> intro he <;> subst he <;> revert h <;> decide

theorem contains_eq_false_of_forall_ne {l : List Char} {a : Char}
    (h : ∀ x ∈ l, ¬x = a) : l.contains a = false := by
  rw [List.contains_eq_any_beq]
  simp only [List.any_eq_false]
  intro x hx
  simp only [beq_iff_eq]
  exact fun he => h x hx he.symm

theorem lastColonIdx_concat (pre ds : List Char)
    (hpre : ∀ c ∈ pre, ¬c = ':') (hds : ∀ c ∈ ds, ¬c = ':') :
    lastColonIdx (pre ++ ':' :: ds) = some pre.length := by
  unfold lastColonIdx
  have hrev : (pre ++ ':' :: ds).reverse = (ds.reverse ++ [':']) ++ pre.reverse := by
    simp
  rw [hrev]
  have hfst : List.findIdx? (· = ':') (ds.reverse ++ [':']) = some ds.length := by
    rw [List.findIdx?_append]
    have hnone : List.findIdx? (· = ':') ds.reverse = none := by
      rw [List.findIdx?_eq_none_iff]
      intro x hx
      simp [hds x (List.mem_reverse.mp hx)]
    rw [hnone]
    simp [List.findIdx?]
  rw [List.findIdx?_append, hfst]
  simp only [Option.or_some]
  have : (pre ++ ':' :: ds).length - 1 - ds.length = pre.length := by
    simp only [List.length_append, List.length_cons]
    omega
  simp [this]

theorem splitHostPort_concat (pre ds : List Char)
    (hpre : ∀ c ∈ pre, c ≠ ':' ∧ c ≠ '[' ∧ c ≠ ']')
    (hds : ∀ c ∈ ds, c ≠ ':' ∧ c ≠ '[' ∧ c ≠ ']') :
    splitHostPort ⟨pre ++ ':' :: ds⟩ = some (⟨pre⟩, ⟨ds⟩) := by
  have hhead : ¬((pre ++ ':' :: ds).head? = some '[') := by
    cases pre with
    | nil => simp
    | cons a t =>
      simp only [List.cons_append, List.head?_cons, Option.some.injEq]
      exact fun ha => (hpre a (by simp)).2.1 ha
  have htake : (pre ++ ':' :: ds).take pre.length = pre := by
    rw [List.take_append_of_le_length (le_refl _)]
    simp
  have hc1 : pre.contains ':' = false :=
    contains_eq_false_of_forall_ne (fun x hx => (hpre x hx).1)
  have hc2 : (pre ++ ':' :: ds).contains '[' = false := by
    apply contains_eq_false_of_forall_ne
    intro x hx
    rcases List.mem_append.mp hx with h1 | h2
    · exact (hpre x h1).2.1
    · rcases List.mem_cons.mp h2 with h3 | h4
      · rw [h3]; decide
      · exact (hds x h4).2.1
  have hc3 : (pre ++ ':' :: ds).contains ']' = false := by
    apply contains_eq_false_of_forall_ne
    intro x hx
    rcases List.mem_append.mp hx with h1 | h2
    · exact (hpre x h1).2.2
    · rcases List.mem_cons.mp h2 with h3 | h4
      · rw [h3]; decide
      · exact (hds x h4).2.2
  have hdrop2 : (pre ++ ':' :: ds).drop (pre.length + 1) = ds := by
    have hsp : pre ++ ':' :: ds = (pre ++ [':']) ++ ds := by simp
    rw [hsp]
    have hlen : (pre ++ [':']).length = pre.length + 1 := by simp
    rw [← hlen, List.drop_left]
  unfold splitHostPort
  rw [lastColonIdx_concat pre ds (fun c hc => (hpre c hc).1) (fun c hc => (hds c hc).1)]
  simp only [if_neg hhead, htake, hc1, hc2, hc3, hdrop2, Bool.false_eq_true, if_false]

/-- The addresses `New` stores (after defaulting port 0 to 80/443):
`httpAddr = ":<port>"`, `httpsAddr = ":<port>"`. -/
structure ServerCfg where
  httpAddr : String
  httpsAddr : String
  tlsEnabled : Bool
  deriving DecidableEq, Repr

def newServer (httpPort httpsPort : Nat) (tls : Bool) : ServerCfg :=
  { httpAddr := ":" ++ toString (if httpPort = 0 then 80 else httpPort),
    httpsAddr := ":" ++ toString (if httpsPort = 0 then 443 else httpsPort),
    tlsEnabled := tls }

/-- The listen address `startTCPListenerLocked` binds for a route. -/
def tcpListenAddr (rt : Route) : String :=
  "127.0.0.1:" ++ toString rt.listenPort

/-- The host part Go's `net.Listen` resolves from a listen address; the
empty host means the wildcard address (all interfaces), so only a
`"127.0.0.1"` host is loopback-only. -/
def goListenHost (addr : String) : Option String :=
  (splitHostPort addr).map Prod.fst

theorem goListenHost_wildcard (p : Nat) : goListenHost (":" ++ toString p) = some "" := by
  have hds : ∀ c ∈ (toString p).data, c ≠ ':' ∧ c ≠ '[' ∧ c ≠ ']' :=
    fun c hc => isDigit_not_special (repr_chars_isDigit p c hc)
  have h := splitHostPort_concat [] (toString p).data (by simp) hds
  have harg : (":" ++ toString p) = (⟨[] ++ ':' :: (toString p).data⟩ : String) := rfl
  unfold goListenHost
  rw [harg, h]
  rfl

theorem goListenHost_loopback (p : Nat) :
    goListenHost ("127.0.0.1:" ++ toString p) = some "127.0.0.1" := by
  have hds : ∀ c ∈ (toString p).data, c ≠ ':' ∧ c ≠ '[' ∧ c ≠ ']' :=
    fun c hc => isDigit_not_special (repr_chars_isDigit p c hc)
  have h := splitHostPort_concat "127.0.0.1".data (toString p).data (by decide) hds
  have harg : ("127.0.0.1:" ++ toString p) =
      (⟨"127.0.0.1".data ++ ':' :: (toString p).data⟩ : String) := rfl
  unfold goListenHost
  rw [harg, h]
  rfl

/-- C9 counterexample: with the default ports, `New` stores `":80"`, whose
host part is empty — the wildcard address, not loopback; the log line in
`Run` even prints `http://0.0.0.0:80`. -/
theorem http_listener_not_loopback_counterexample :
    (newServer 80 443 true).httpAddr = ":80" ∧
    goListenHost ":80" = some "" ∧
    ¬goListenHost ":80" = some "127.0.0.1" := by
  refine ⟨rfl, by decide, by decide⟩

/-- C9 amended: the daemon's HTTP and HTTPS listeners bind the wildcard
address `":<port>"` (all interfaces), so they are reachable beyond
loopback; only the per-route TCP listeners are bound to
`127.0.0.1:<listen_port>`. -/
theorem listener_bind_hosts (httpPort httpsPort : Nat) (tls : Bool) (rt : Route) :
    goListenHost (newServer httpPort httpsPort tls).httpAddr = some "" ∧
    goListenHost (newServer httpPort httpsPort tls).httpsAddr = some "" ∧
    goListenHost (tcpListenAddr rt) = some "127.0.0.1" :=
  ⟨goListenHost_wildcard _, goListenHost_wildcard _, goListenHost_loopback _⟩

/-! ### TCP splice (handleTCP)

`handleTCP` dials the upstream with a 5-second timeout; on failure the
accepted connection is closed.  On success it launches two copy
goroutines, one per direction: `io.Copy(dst, src)` moves the source's
byte stream to the destination in order until EOF, after which the
goroutine half-closes the write side of its destination (`CloseWrite`).
`wg.Wait()` runs before the deferred `Close` of both connections, so the
full close happens only after both directions have finished.  The model
captures a handler run as any interleaving of the two sequential pump
traces, followed by the joint close. -/

inductive SpliceEv where
  | writeUpstream (b : Nat)
  | closeWriteUpstream
  | writeClient (b : Nat)
  | closeWriteClient
  | closeBoth
  deriving DecidableEq, Repr

/-- One copy goroutine: `io.Copy` (all source bytes in order) then
`CloseWrite` on its destination. -/
def pumpEvents (write : Nat → SpliceEv) (closeW : SpliceEv) (src : List Nat) :
    List SpliceEv :=
  src.map write ++ [closeW]

/-- `zs` is an interleaving of `xs` and `ys` preserving each side's
order — the possible schedules of two concurrent goroutines. -/
inductive Interleaves : List SpliceEv → List SpliceEv → List SpliceEv → Prop where
  | nil : Interleaves [] [] []
  | left {x xs ys zs} : Interleaves xs ys zs → Interleaves (x :: xs) ys (x :: zs)
  | right {y xs ys zs} : Interleaves xs ys zs → Interleaves xs (y :: ys) (y :: zs)

/-- The traces `handleTCP` can produce after a successful dial: any
schedule of the client-to-upstream pump and the upstream-to-client pump,
then the joint close once `wg.Wait()` returns. -/
def HandleTCPTrace (clientBytes upstreamBytes : List Nat) (t : List SpliceEv) : Prop :=
  ∃ m, Interleaves (pumpEvents .writeUpstream .closeWriteUpstream clientBytes)
      (pumpEvents .writeClient .closeWriteClient upstreamBytes) m ∧
    t = m ++ [SpliceEv.closeBoth]

def isUpstreamDirEv : SpliceEv → Bool
  | .writeUpstream _ => true
  | .closeWriteUpstream => true
  | _ => false

def isClientDirEv : SpliceEv → Bool
  | .writeClient _ => true
  | .closeWriteClient => true
  | _ => false

/-- Extractor for bytes written to the upstream connection. -/
def exUpB : SpliceEv → Option Nat
  | .writeUpstream b => some b
  | _ => none

/-- Extractor for bytes written back to the client connection. -/
def exClB : SpliceEv → Option Nat
  | .writeClient b => some b
  | _ => none

/-- Bytes the upstream connection receives, in trace order. -/
def bytesToUpstream (t : List SpliceEv) : List Nat :=
  t.filterMap exUpB

def bytesToClient (t : List SpliceEv) : List Nat :=
  t.filterMap exClB

theorem interleaves_filter {p : SpliceEv → Bool} {xs ys zs : List SpliceEv}
    (h : Interleaves xs ys zs) (hx : ∀ e ∈ xs, p e = true)
    (hy : ∀ e ∈ ys, p e = false) : zs.filter p = xs := by
  induction h with
  | nil => rfl
  | left h ih =>
    rename_i x xs' ys' zs'
    rw [List.filter_cons, if_pos (hx x (by simp))]
    rw [ih (fun e he => hx e (by simp [he])) hy]
  | right h ih =>
    rename_i y xs' ys' zs'
    rw [List.filter_cons, if_neg (by simp [hy y (by simp)])]
    exact ih hx (fun e he => hy e (by simp [he]))

theorem interleaves_filterMap {f : SpliceEv → Option Nat} {xs ys zs : List SpliceEv}
    (h : Interleaves xs ys zs) (hy : ∀ e ∈ ys, f e = none) :
    zs.filterMap f = xs.filterMap f := by
  induction h with
  | nil => rfl
  | left h ih =>
    rename_i x xs' ys' zs'
    rw [List.filterMap_cons, List.filterMap_cons]
    cases f x <;> simp [ih hy]
  | right h ih =>
    rename_i y xs' ys' zs'
    rw [List.filterMap_cons, hy y (by simp)]
    exact ih (fun e he => hy e (by simp [he]))

theorem interleaves_mem {xs ys zs : List SpliceEv} (h : Interleaves xs ys zs) :
    ∀ e ∈ zs, e ∈ xs ∨ e ∈ ys := by
  induction h with
  | nil => intro e he; simp at he
  | left h ih =>
    intro e he
    rcases List.mem_cons.mp he with h1 | h2
    · exact Or.inl (by simp [h1])
    · rcases ih e h2 with h3 | h3
      · exact Or.inl (by simp [h3])
      · exact Or.inr h3
  | right h ih =>
    intro e he
    rcases List.mem_cons.mp he with h1 | h2
    · exact Or.inr (by simp [h1])
    · rcases ih e h2 with h3 | h3
      · exact Or.inl h3
      · exact Or.inr (by simp [h3])

theorem interleaves_symm {xs ys zs : List SpliceEv} (h : Interleaves xs ys zs) :
    Interleaves ys xs zs := by
  induction h with
  | nil => exact Interleaves.nil
  | left h ih => exact Interleaves.right ih
  | right h ih => exact Interleaves.left ih

theorem upPump_dir (l : List Nat) :
    ∀ e ∈ pumpEvents .writeUpstream .closeWriteUpstream l,
      isUpstreamDirEv e = true ∧ isClientDirEv e = false ∧ exClB e = none ∧
      e ≠ SpliceEv.closeBoth := by
  intro e he
  rcases List.mem_append.mp he with h1 | h2
  · obtain ⟨b, -, hb⟩ := List.mem_map.mp h1
    rw [← hb]
    exact ⟨rfl, rfl, rfl, fun hcb => SpliceEv.noConfusion hcb⟩
  · rw [List.mem_singleton.mp h2]
    exact ⟨rfl, rfl, rfl, fun hcb => SpliceEv.noConfusion hcb⟩

theorem clPump_dir (l : List Nat) :
    ∀ e ∈ pumpEvents .writeClient .closeWriteClient l,
      isClientDirEv e = true ∧ isUpstreamDirEv e = false ∧ exUpB e = none ∧
      e ≠ SpliceEv.closeBoth := by
  intro e he
  rcases List.mem_append.mp he with h1 | h2
  · obtain ⟨b, -, hb⟩ := List.mem_map.mp h1
    rw [← hb]
    exact ⟨rfl, rfl, rfl, fun hcb => SpliceEv.noConfusion hcb⟩
  · rw [List.mem_singleton.mp h2]
    exact ⟨rfl, rfl, rfl, fun hcb => SpliceEv.noConfusion hcb⟩

theorem filterMap_exUpB_map (l : List Nat) :
    (l.map SpliceEv.writeUpstream).filterMap exUpB = l := by
  induction l with
  | nil => rfl
  | cons b bs ih =>
    rw [List.map_cons, List.filterMap_cons]
    simpa [exUpB] using ih

theorem filterMap_exClB_map (l : List Nat) :
    (l.map SpliceEv.writeClient).filterMap exClB = l := by
  induction l with
  | nil => rfl
  | cons b bs ih =>
    rw [List.map_cons, List.filterMap_cons]
    simpa [exClB] using ih

/-- C3: on every trace of a successfully spliced connection — under any
schedule of the two pumps — the upstream receives exactly the client's
bytes in order and then observes the half-close, the client symmetrically
receives the upstream's bytes and then its half-close, and the joint
close of both connections is the single final event, after both
directions have completed. -/
theorem handleTCP_splice (clientBytes upstreamBytes : List Nat) (t : List SpliceEv)
    (h : HandleTCPTrace clientBytes upstreamBytes t) :
    bytesToUpstream t = clientBytes ∧
    bytesToClient t = upstreamBytes ∧
    t.filter isUpstreamDirEv =
      clientBytes.map SpliceEv.writeUpstream ++ [SpliceEv.closeWriteUpstream] ∧
    t.filter isClientDirEv =
      upstreamBytes.map SpliceEv.writeClient ++ [SpliceEv.closeWriteClient] ∧
    t.getLast? = some SpliceEv.closeBoth ∧
    t.count SpliceEv.closeBoth = 1 := by
  obtain ⟨m, hint, ht⟩ := h
  have hintSymm := interleaves_symm hint
  refine ⟨?_, ?_, ?_, ?_, ?_, ?_⟩
  · rw [ht, bytesToUpstream, List.filterMap_append]
    have h1 : List.filterMap exUpB [SpliceEv.closeBoth] = [] := rfl
    rw [h1, List.append_nil,
      interleaves_filterMap hint (fun e he => (clPump_dir upstreamBytes e he).2.2.1),
      pumpEvents, List.filterMap_append]
    have h2 : List.filterMap exUpB [SpliceEv.closeWriteUpstream] = [] := rfl
    rw [h2, List.append_nil, filterMap_exUpB_map]
  · rw [ht, bytesToClient, List.filterMap_append]
    have h1 : List.filterMap exClB [SpliceEv.closeBoth] = [] := rfl
    rw [h1, List.append_nil,
      interleaves_filterMap hintSymm (fun e he => (upPump_dir clientBytes e he).2.2.1),
      pumpEvents, List.filterMap_append]
    have h2 : List.filterMap exClB [SpliceEv.closeWriteClient] = [] := rfl
    rw [h2, List.append_nil, filterMap_exClB_map]
  · rw [ht, List.filter_append]
    have h1 : List.filter isUpstreamDirEv [SpliceEv.closeBoth] = [] := rfl
    rw [h1, List.append_nil,
      interleaves_filter hint (fun e he => (upPump_dir clientBytes e he).1)
        (fun e he => (clPump_dir upstreamBytes e he).2.1)]
    rfl
  · rw [ht, List.filter_append]
    have h1 : List.filter isClientDirEv [SpliceEv.closeBoth] = [] := rfl
    rw [h1, List.append_nil,
      interleaves_filter hintSymm (fun e he => (clPump_dir upstreamBytes e he).1)
        (fun e he => (upPump_dir clientBytes e he).2.1)]
    rfl
  · rw [ht, List.getLast?_append]
    rfl
  · rw [ht, List.count_append]
    have hm : m.count SpliceEv.closeBoth = 0 := by
      rw [List.count_eq_zero]
      intro hmem
      rcases interleaves_mem hint SpliceEv.closeBoth hmem with h1 | h1
      · exact (upPump_dir clientBytes _ h1).2.2.2 rfl
      · exact (clPump_dir upstreamBytes _ h1).2.2.2 rfl
    rw [hm]
    rfl

/-- Witness for C3 at a concrete pair of streams and the sequential
schedule that runs the client pump first. -/
theorem handleTCP_splice_witness :
    bytesToUpstream (pumpEvents .writeUpstream .closeWriteUpstream [0, 1, 255] ++
      pumpEvents .writeClient .closeWriteClient [7] ++ [SpliceEv.closeBoth]) =
      [0, 1, 255] ∧
    (pumpEvents .writeUpstream .closeWriteUpstream [0, 1, 255] ++
      pumpEvents .writeClient .closeWriteClient [7] ++
      [SpliceEv.closeBoth]).getLast? = some SpliceEv.closeBoth := by
  have hil : Interleaves (pumpEvents .writeUpstream .closeWriteUpstream [0, 1, 255])
      (pumpEvents .writeClient .closeWriteClient [7])
      (pumpEvents .writeUpstream .closeWriteUpstream [0, 1, 255] ++
        pumpEvents .writeClient .closeWriteClient [7]) := by
    refine Interleaves.left (Interleaves.left (Interleaves.left (Interleaves.left ?_)))
    exact Interleaves.right (Interleaves.right Interleaves.nil)
  have h := handleTCP_splice [0, 1, 255] [7] _ ⟨_, hil, rfl⟩
  exact ⟨h.1, h.2.2.2.2.1⟩

/-! ### DNS responder (internal/dns/server.go)

`Start` registers `handleTest` for the `test.` zone and `handleForward`
for `.` on a `dns.ServeMux`; the mux dispatches on the first question's
name, lowercased, and replies SERVFAIL to a query with no questions.
Wire constants follow the miekg/dns package. -/

def typeA : Nat := 1
def typeAAAA : Nat := 28
def typeANY : Nat := 255
def classINET : Nat := 1
def rcodeSuccess : Nat := 0
def rcodeServerFailure : Nat := 2

structure DNSQuestion where
  qname : String
  qtype : Nat
  qclass : Nat
  deriving DecidableEq, Repr

structure DNSRR where
  rname : String
  rrtype : Nat
  rclass : Nat
  ttl : Nat
  rdata : String
  deriving DecidableEq, Repr

structure DNSMsg where
  mid : Nat
  response : Bool
  authoritative : Bool
  rcode : Nat
  question : List DNSQuestion
  answer : List DNSRR
  deriving DecidableEq, Repr

/-- `msg.SetReply(r)`: reply skeleton with the request's id and
questions, success rcode, no answers. -/
def setReply (r : DNSMsg) : DNSMsg :=
  { mid := r.mid, response := true, authoritative := false,
    rcode := rcodeSuccess, question := r.question, answer := [] }

/-- The A record `handleTest` appends: question name, class IN, TTL 60,
loopback address. -/
def testA (name : String) : DNSRR :=
  { rname := name, rrtype := typeA, rclass := classINET, ttl := 60, rdata := "127.0.0.1" }

/-- `handleTest`: authoritative reply; one loopback A record per
question of type A or ANY, in question order. -/
def handleTest (r : DNSMsg) : DNSMsg :=
  { setReply r with
    authoritative := true,
    answer := r.question.foldl
      (fun acc q =>
        if q.qtype == typeA || q.qtype == typeANY then acc ++ [testA q.qname] else acc)
      [] }

/-- `dns.HandleFailed`: `SetRcode(r, RcodeServerFailure)`. -/
def handleFailed (r : DNSMsg) : DNSMsg :=
  { setReply r with rcode := rcodeServerFailure }

/-- Result of `dns.Client.Exchange` with the upstream, supplied as an
oracle so the model stays executable. -/
inductive ExchangeResult where
  | ok (resp : DNSMsg)
  | err
  deriving Repr

/-- `handleForward`: SERVFAIL when no upstream was discovered or the
exchange errs, otherwise the upstream's reply is written back as-is. -/
def handleForward (upstream : String) (ex : DNSMsg → ExchangeResult) (r : DNSMsg) : DNSMsg :=
  if upstream == "" then handleFailed r
  else
    match ex r with
    | .ok resp => resp
    | .err => handleFailed r

/-- The transport `handleForward` exchanges over: it builds
`new(dns.Client)` whose zero-value `Net` selects UDP — independent of
the transport the query arrived on (the argument is unused). -/
def forwardExchangeTransport (clientTransport : String) : String :=
  "udp"

def listEndsWith (cs suffix : List Char) : Bool :=
  cs.reverse.take suffix.length == suffix.reverse

def strEndsWith (s suffix : String) : Bool :=
  listEndsWith s.data suffix.data

/-- The `ServeMux` dispatch: queries with no question get SERVFAIL; a
first-question name in the `test.` zone (lowercased) goes to
`handleTest`, everything else to `handleForward`. -/
def dnsDispatch (upstream : String) (ex : DNSMsg → ExchangeResult) (r : DNSMsg) : DNSMsg :=
  match r.question with
  | [] => handleFailed r
  | q :: _ =>
    if lowerStr q.qname == "test." || strEndsWith (lowerStr q.qname) ".test." then
      handleTest r
    else
      handleForward upstream ex r

theorem handleTest_answer_foldl (qs : List DNSQuestion) (acc : List DNSRR) :
    qs.foldl
      (fun acc q =>
        if q.qtype == typeA || q.qtype == typeANY then acc ++ [testA q.qname] else acc)
      acc =
    acc ++ (qs.filter (fun q => q.qtype == typeA || q.qtype == typeANY)).map
      (fun q => testA q.qname) := by
  induction qs generalizing acc with
  | nil => simp
  | cons q qs ih =>
    rw [List.foldl_cons, List.filter_cons]
    by_cases hq : (q.qtype == typeA || q.qtype == typeANY) = true
    · rw [if_pos hq, if_pos hq, ih, List.map_cons]
      simp
    · rw [if_neg hq, if_neg (by simpa using hq), ih]

/-- C4: a query whose first question's lowercased name ends in the
reserved `.test.` label is answered authoritatively with NOERROR, the
answers being exactly one loopback A record (name = question name, value
127.0.0.1, class IN, TTL 60) per question of type A or ANY, other
question types contributing nothing; with distinct names among the A/ANY
questions each such question has exactly one matching answer record. -/
theorem dns_test_zone_reply (upstream : String) (ex : DNSMsg → ExchangeResult)
    (r : DNSMsg) (q0 : DNSQuestion) (hq : r.question.head? = some q0)
    (hsuf : strEndsWith (lowerStr q0.qname) ".test." = true) :
    dnsDispatch upstream ex r = handleTest r ∧
    (handleTest r).authoritative = true ∧
    (handleTest r).rcode = rcodeSuccess ∧
    (handleTest r).answer =
      (r.question.filter (fun q => q.qtype == typeA || q.qtype == typeANY)).map
        (fun q => testA q.qname) ∧
    (((r.question.filter (fun q => q.qtype == typeA || q.qtype == typeANY)).map
        (fun q => q.qname)).Nodup →
      ∀ q ∈ r.question, (q.qtype == typeA || q.qtype == typeANY) = true →
        ((handleTest r).answer.filter (fun a => a.rname == q.qname)).length = 1) := by
  have hansfold : (handleTest r).answer =
      (r.question.filter (fun q => q.qtype == typeA || q.qtype == typeANY)).map
        (fun q => testA q.qname) := by
    show r.question.foldl _ [] = _
    rw [handleTest_answer_foldl]
    rfl
  refine ⟨?_, rfl, rfl, hansfold, ?_⟩
  · have hcond : (lowerStr q0.qname == "test." ||
        strEndsWith (lowerStr q0.qname) ".test.") = true := by
      rw [hsuf]
      simp
    cases hqs : r.question with
    | nil => rw [hqs] at hq; exact Option.noConfusion hq
    | cons q rest =>
      rw [hqs] at hq
      have hq0 : q = q0 := by injection hq
      subst hq0
      simp [dnsDispatch, hqs, hcond]
  · intro hnodup q hqmem hqty
    rw [hansfold, List.filter_map, List.length_map]
    have hfeq : ((fun (a : DNSRR) => a.rname == q.qname) ∘
        (fun (q' : DNSQuestion) => testA q'.qname)) =
        fun (q' : DNSQuestion) => q'.qname == q.qname := by
      funext q'
      rfl
    rw [hfeq]
    have hqin : q ∈ r.question.filter (fun q' => q'.qtype == typeA || q'.qtype == typeANY) :=
      List.mem_filter.mpr ⟨hqmem, hqty⟩
    have hlen : ((r.question.filter
          (fun q' => q'.qtype == typeA || q'.qtype == typeANY)).filter
        (fun q' => q'.qname == q.qname)).length =
        ((r.question.filter (fun q' => q'.qtype == typeA || q'.qtype == typeANY)).map
          (fun q' => q'.qname)).count q.qname := by
      rw [List.count, List.countP_eq_length_filter, List.filter_map, List.length_map]
      rfl
    rw [hlen]
    exact List.count_eq_one_of_mem hnodup
      (List.mem_map.mpr ⟨q, hqin, rfl⟩)

/-- Witness for C4: an A and an AAAA question for `foo.test.`; the reply
carries exactly the single A record for the A question. -/
theorem dns_test_zone_reply_witness :
    (handleTest (DNSMsg.mk 7 false false 0
        [DNSQuestion.mk "foo.test." 1 1, DNSQuestion.mk "foo.test." 28 1] [])).answer =
      [testA "foo.test."] ∧
    (handleTest (DNSMsg.mk 7 false false 0
        [DNSQuestion.mk "foo.test." 1 1, DNSQuestion.mk "foo.test." 28 1] [])).authoritative =
      true ∧
    dnsDispatch "8.8.8.8:53" (fun _ => ExchangeResult.err)
        (DNSMsg.mk 7 false false 0
          [DNSQuestion.mk "foo.test." 1 1, DNSQuestion.mk "foo.test." 28 1] []) =
      handleTest (DNSMsg.mk 7 false false 0
        [DNSQuestion.mk "foo.test." 1 1, DNSQuestion.mk "foo.test." 28 1] []) := by
  have h := dns_test_zone_reply "8.8.8.8:53" (fun _ => ExchangeResult.err)
    (DNSMsg.mk 7 false false 0
      [DNSQuestion.mk "foo.test." 1 1, DNSQuestion.mk "foo.test." 28 1] [])
    (DNSQuestion.mk "foo.test." 1 1) rfl (by decide)
  refine ⟨?_, h.2.1, h.1⟩
  rw [h.2.2.2.1]
  decide

/-- C8 counterexample: the forwarder always exchanges over the default
client transport (UDP) — for a query that arrived over TCP the upstream
exchange still uses UDP, contradicting transport matching. -/
theorem dns_forward_transport_counterexample :
    forwardExchangeTransport "tcp" = "udp" ∧ forwardExchangeTransport "tcp" ≠ "tcp" := by
  exact ⟨rfl, by decide⟩

/-- C8 amended: a query whose first question is outside the reserved
zone is forwarded verbatim to the upstream resolver discovered at
startup, over the library's default client transport (UDP, regardless of
the transport the client used); the upstream's reply is returned as-is,
and on exchange failure (or when no upstream is configured) the querier
gets SERVFAIL. -/
theorem dns_forward_behavior (upstream : String) (ex : DNSMsg → ExchangeResult)
    (r : DNSMsg) (q0 : DNSQuestion) (hq : r.question.head? = some q0)
    (hz : (lowerStr q0.qname == "test." || strEndsWith (lowerStr q0.qname) ".test.") = false) :
    dnsDispatch upstream ex r = handleForward upstream ex r ∧
    ((upstream == "") = false → ∀ resp, ex r = .ok resp →
      handleForward upstream ex r = resp) ∧
    ((upstream == "") = false → ex r = .err →
      handleForward upstream ex r = handleFailed r ∧
      (handleFailed r).rcode = rcodeServerFailure) ∧
    (∀ clientTransport : String, forwardExchangeTransport clientTransport = "udp") := by
  refine ⟨?_, ?_, ?_, fun _ => rfl⟩
  · cases hqs : r.question with
    | nil => rw [hqs] at hq; exact Option.noConfusion hq
    | cons q rest =>
      rw [hqs] at hq
      have hq0 : q = q0 := by injection hq
      subst hq0
      simp [dnsDispatch, hqs, hz]
  · intro hup resp hex
    unfold handleForward
    rw [if_neg (by simp [hup]), hex]
  · intro hup hex
    refine ⟨?_, rfl⟩
    unfold handleForward
    rw [if_neg (by simp [hup]), hex]

/-- Witness for C8: a non-reserved query forwarded with an upstream
reply, and with a failing exchange. -/
theorem dns_forward_behavior_witness :
    handleForward "8.8.8.8:53"
      (fun _ => ExchangeResult.ok (DNSMsg.mk 9 true false 0 [] []))
      (DNSMsg.mk 9 false false 0 [DNSQuestion.mk "example.com." 1 1] []) =
      DNSMsg.mk 9 true false 0 [] [] ∧
    (handleForward "8.8.8.8:53" (fun _ => ExchangeResult.err)
      (DNSMsg.mk 9 false false 0 [DNSQuestion.mk "example.com." 1 1] [])).rcode =
      rcodeServerFailure := by
  constructor
  · exact (dns_forward_behavior "8.8.8.8:53"
      (fun _ => ExchangeResult.ok (DNSMsg.mk 9 true false 0 [] []))
      (DNSMsg.mk 9 false false 0 [DNSQuestion.mk "example.com." 1 1] [])
      (DNSQuestion.mk "example.com." 1 1) rfl (by decide)).2.1 (by decide) _ rfl
  · have h := (dns_forward_behavior "8.8.8.8:53" (fun _ => ExchangeResult.err)
      (DNSMsg.mk 9 false false 0 [DNSQuestion.mk "example.com." 1 1] [])
      (DNSQuestion.mk "example.com." 1 1) rfl (by decide)).2.2.1 (by decide) rfl
    rw [h.1]
    exact h.2

/-! ### TCP listener pool, reconciler and route watcher

`tcpListeners` maps a domain to its open listener.  A pool entry records
the ports in effect when the listener was opened: the socket keeps
accepting on that listen port, and the accept goroutine captured
`route.Port` at open time.  `net.Listen` success is an oracle so the
model covers bind failures. -/

structure ListenerEntry where
  boundListenPort : Nat
  boundUpstreamPort : Nat
  deriving DecidableEq, Repr

abbrev TCPPool := List (String × ListenerEntry)

abbrev BindOracle := Nat → Bool

/-- `startTCPListenerLocked`: skip listen-port zero; no-op when the
domain already has a listener; open (append) when the bind succeeds;
log-and-return when it fails. -/
def startTCPListenerLocked (canBind : BindOracle) (pool : TCPPool) (rt : Route) : TCPPool :=
  if rt.listenPort == 0 then pool
  else if (pool.lookup rt.domain).isSome then pool
  else if canBind rt.listenPort then
    pool ++ [(rt.domain, ListenerEntry.mk rt.listenPort rt.port)]
  else pool

/-- `startTCPListeners`: one locked start per tcp-typed route. -/
def startTCPListeners (canBind : BindOracle) (routes : List Route) (pool : TCPPool) : TCPPool :=
  routes.foldl
    (fun p rt => if rt.rtype != "tcp" then p else startTCPListenerLocked canBind p rt) pool

def isActiveTCPDomain (routes : List Route) (d : String) : Bool :=
  routes.any (fun rt => rt.rtype == "tcp" && rt.domain == d)

/-- `reconcileTCPListeners`: drop (closing) the listeners whose domain is
no longer tcp-routed, then start listeners for the tcp routes. -/
def reconcileTCPListeners (canBind : BindOracle) (routes : List Route) (pool : TCPPool) :
    TCPPool :=
  startTCPListeners canBind routes (pool.filter (fun e => isActiveTCPDomain routes e.1))

/-- The entries the reconcile pass closes (`ln.Close()` before removal). -/
def reconcileClosed (routes : List Route) (pool : TCPPool) : TCPPool :=
  pool.filter (fun e => !isActiveTCPDomain routes e.1)

/-- What `os.ReadFile` + `json.Unmarshal` produced for one reload. -/
inductive ReadResult where
  | notExist
  | readErr
  | empty
  | malformed
  | routes (rs : List Route)
  deriving Repr

/-- `loadRoutes`: `none` is the error return (`s.routes` untouched);
`some` carries the table after the call (missing and empty files leave
it as it was; a parse success replaces it, defaulting empty types to
`"http"`). -/
def loadRoutes (cur : List Route) (read : ReadResult) : Option (List Route) :=
  match read with
  | .notExist => some cur
  | .readErr => none
  | .empty => some cur
  | .malformed => none
  | .routes rs =>
    some (rs.map (fun rt => if rt.rtype == "" then { rt with rtype := "http" } else rt))

/-- What one poll tick observes: `os.Stat` failure, or a modification
time plus the subsequent read. -/
inductive FileObs where
  | statErr
  | present (mtime : Nat) (read : ReadResult)

structure WatchState where
  lastMod : Nat
  routes : List Route
  pool : TCPPool

/-- One iteration of the `watchRoutes` loop: skip on stat failure or
unchanged modification time; otherwise record the new time, reload, and
reconcile only when the reload succeeded. -/
def watchTick (canBind : BindOracle) (st : WatchState) (obs : FileObs) : WatchState :=
  match obs with
  | .statErr => st
  | .present mtime read =>
    if st.lastMod < mtime then
      match loadRoutes st.routes read with
      | none => { st with lastMod := mtime }
      | some newRoutes =>
        { lastMod := mtime, routes := newRoutes,
          pool := reconcileTCPListeners canBind newRoutes st.pool }
    else st

/-! Association-list lookup lemmas for the pool. -/

theorem lookup_append_of_some {l1 l2 : TCPPool} {d : String} {e : ListenerEntry}
    (h : l1.lookup d = some e) : (l1 ++ l2).lookup d = some e := by
  induction l1 with
  | nil => simp [List.lookup] at h
  | cons p t ih =>
    simp only [List.lookup, List.cons_append] at h ⊢
    cases hk : (d == p.1) with
    | true => rw [hk] at h; exact h
    | false => rw [hk] at h; exact ih h

theorem lookup_append_of_none {l1 l2 : TCPPool} {d : String}
    (h : l1.lookup d = none) : (l1 ++ l2).lookup d = l2.lookup d := by
  induction l1 with
  | nil => rfl
  | cons p t ih =>
    simp only [List.lookup, List.cons_append] at h ⊢
    cases hk : (d == p.1) with
    | true => rw [hk] at h; exact Option.noConfusion h
    | false => rw [hk] at h; exact ih h

theorem lookup_filter_none {l : TCPPool} {f : String × ListenerEntry → Bool} {d : String}
    (h : l.lookup d = none) : (l.filter f).lookup d = none := by
  induction l with
  | nil => rfl
  | cons p t ih =>
    simp only [List.lookup] at h
    cases hk : (d == p.1) with
    | true => rw [hk] at h; exact Option.noConfusion h
    | false =>
      rw [hk] at h
      rw [List.filter_cons]
      by_cases hf : f p = true
      · rw [if_pos hf]
        simp only [List.lookup, hk]
        exact ih h
      · rw [if_neg hf]
        exact ih h

theorem lookup_filter_key_false {l : TCPPool} {f : String × ListenerEntry → Bool} {d : String}
    (h : ∀ e : ListenerEntry, f (d, e) = false) : (l.filter f).lookup d = none := by
  induction l with
  | nil => rfl
  | cons p t ih =>
    rw [List.filter_cons]
    by_cases hf : f p = true
    · rw [if_pos hf]
      simp only [List.lookup]
      cases hk : (d == p.1) with
      | true =>
        exfalso
        have hdp : d = p.1 := by simpa using hk
        have : f (d, p.2) = false := h p.2
        rw [hdp] at this
        rw [this] at hf
        exact Bool.noConfusion hf
      | false => exact ih
    · rw [if_neg hf]
      exact ih

theorem mem_of_lookup_some {l : TCPPool} {d : String} {e : ListenerEntry}
    (h : l.lookup d = some e) : (d, e) ∈ l := by
  induction l with
  | nil => simp [List.lookup] at h
  | cons p t ih =>
    simp only [List.lookup] at h
    cases hk : (d == p.1) with
    | true =>
      rw [hk] at h
      have hdp : d = p.1 := by simpa using hk
      have he : e = p.2 := by injection h with h'; exact h'.symm
      rw [hdp, he]
      simp
    | false =>
      rw [hk] at h
      exact List.mem_cons_of_mem _ (ih h)

theorem lookup_single_self (k : String) (v : ListenerEntry) :
    ([(k, v)] : TCPPool).lookup k = some v := by
  simp [List.lookup]

theorem lookup_single_ne {d k : String} (v : ListenerEntry) (h : d ≠ k) :
    ([(k, v)] : TCPPool).lookup d = none := by
  have hk : (d == k) = false := by simp [h]
  simp [List.lookup, hk]

theorem startLocked_preserves_some {canBind : BindOracle} {pool : TCPPool} {rt : Route}
    {d : String} {e : ListenerEntry} (h : pool.lookup d = some e) :
    (startTCPListenerLocked canBind pool rt).lookup d = some e := by
  unfold startTCPListenerLocked
  by_cases h0 : (rt.listenPort == 0) = true
  · rw [if_pos h0]; exact h
  · rw [if_neg h0]
    by_cases h1 : (pool.lookup rt.domain).isSome = true
    · rw [if_pos h1]; exact h
    · rw [if_neg h1]
      by_cases h2 : canBind rt.listenPort = true
      · rw [if_pos h2]; exact lookup_append_of_some h
      · rw [if_neg h2]; exact h

theorem startLocked_lookup_other {canBind : BindOracle} {pool : TCPPool} {rt : Route}
    {d : String} (hne : rt.domain ≠ d) :
    (startTCPListenerLocked canBind pool rt).lookup d = pool.lookup d := by
  unfold startTCPListenerLocked
  by_cases h0 : (rt.listenPort == 0) = true
  · rw [if_pos h0]
  · rw [if_neg h0]
    by_cases h1 : (pool.lookup rt.domain).isSome = true
    · rw [if_pos h1]
    · rw [if_neg h1]
      by_cases h2 : canBind rt.listenPort = true
      · rw [if_pos h2]
        cases hl : pool.lookup d with
        | some e => exact lookup_append_of_some hl
        | none =>
          rw [lookup_append_of_none hl]
          exact lookup_single_ne _ (fun hdm => hne hdm.symm)
      · rw [if_neg h2]

theorem startListeners_preserves_some (canBind : BindOracle) (routes : List Route)
    {pool : TCPPool} {d : String} {e : ListenerEntry} (h : pool.lookup d = some e) :
    (startTCPListeners canBind routes pool).lookup d = some e := by
  induction routes generalizing pool with
  | nil => exact h
  | cons rt rest ih =>
    unfold startTCPListeners
    rw [List.foldl_cons]
    by_cases ht : (rt.rtype != "tcp") = true
    · rw [if_pos ht]; exact ih h
    · rw [if_neg ht]; exact ih (startLocked_preserves_some h)

theorem startListeners_no_domain (canBind : BindOracle) (routes : List Route)
    {pool : TCPPool} {d : String}
    (hno : ∀ rt ∈ routes, (rt.rtype == "tcp" && rt.domain == d) = false) :
    (startTCPListeners canBind routes pool).lookup d = pool.lookup d := by
  induction routes generalizing pool with
  | nil => rfl
  | cons rt rest ih =>
    unfold startTCPListeners
    rw [List.foldl_cons]
    by_cases ht : (rt.rtype != "tcp") = true
    · rw [if_pos ht]
      exact ih (fun r hr => hno r (by simp [hr]))
    · rw [if_neg ht]
      have htcp : rt.rtype = "tcp" := by
        simpa using ht
      have hdom : rt.domain ≠ d := by
        have := hno rt (by simp)
        simp [htcp] at this
        exact this
      have hres : List.lookup d (startTCPListeners canBind rest
          (startTCPListenerLocked canBind pool rt)) = List.lookup d pool := by
        rw [ih (fun r hr => hno r (by simp [hr])), startLocked_lookup_other hdom]
      exact hres

theorem startLocked_none_of_fail {canBind : BindOracle} {pool : TCPPool} {rt : Route}
    {d : String} (hnone : pool.lookup d = none)
    (hfail : rt.rtype = "tcp" → rt.domain = d →
      rt.listenPort = 0 ∨ canBind rt.listenPort = false) (htcp : rt.rtype = "tcp") :
    (startTCPListenerLocked canBind pool rt).lookup d = none := by
  by_cases hdom : rt.domain = d
  · unfold startTCPListenerLocked
    rcases hfail htcp hdom with hlp | hcb
    · rw [if_pos (by simp [hlp])]
      exact hnone
    · by_cases h0 : (rt.listenPort == 0) = true
      · rw [if_pos h0]; exact hnone
      · rw [if_neg h0]
        by_cases h1 : (pool.lookup rt.domain).isSome = true
        · rw [if_pos h1]; exact hnone
        · rw [if_neg h1, if_neg (by simp [hcb])]
          exact hnone
  · rw [startLocked_lookup_other hdom]
    exact hnone

theorem startListeners_none_of_fail (canBind : BindOracle) (routes : List Route)
    {pool : TCPPool} {d : String} (hnone : pool.lookup d = none)
    (hfail : ∀ rt ∈ routes, rt.rtype = "tcp" → rt.domain = d →
      rt.listenPort = 0 ∨ canBind rt.listenPort = false) :
    (startTCPListeners canBind routes pool).lookup d = none := by
  induction routes generalizing pool with
  | nil => exact hnone
  | cons rt rest ih =>
    unfold startTCPListeners
    rw [List.foldl_cons]
    by_cases ht : (rt.rtype != "tcp") = true
    · rw [if_pos ht]
      exact ih hnone (fun r hr => hfail r (by simp [hr]))
    · rw [if_neg ht]
      have htcp : rt.rtype = "tcp" := by simpa using ht
      exact ih (startLocked_none_of_fail hnone (hfail rt (by simp)) htcp)
        (fun r hr => hfail r (by simp [hr]))

theorem startListeners_opens (canBind : BindOracle) (routes : List Route)
    {pool : TCPPool} {rt : Route} (hmem : rt ∈ routes) (htcp : rt.rtype = "tcp")
    (hlp : rt.listenPort ≠ 0) (hbind : canBind rt.listenPort = true) :
    ((startTCPListeners canBind routes pool).lookup rt.domain).isSome = true := by
  induction routes generalizing pool with
  | nil => simp at hmem
  | cons a rest ih =>
    unfold startTCPListeners
    rw [List.foldl_cons]
    rcases List.mem_cons.mp hmem with heq | hmem'
    · subst heq
      rw [if_neg (by simp [htcp])]
      unfold startTCPListenerLocked
      rw [if_neg (by simp [hlp])]
      by_cases h1 : (pool.lookup rt.domain).isSome = true
      · rw [if_pos h1]
        obtain ⟨e, he⟩ := Option.isSome_iff_exists.mp h1
        have hres : List.lookup rt.domain (startTCPListeners canBind rest pool) = some e :=
          startListeners_preserves_some canBind rest he
        exact Option.isSome_iff_exists.mpr ⟨e, hres⟩
      · rw [if_neg h1, if_pos hbind]
        have hnone : pool.lookup rt.domain = none := by
          cases hl : pool.lookup rt.domain with
          | none => rfl
          | some e => rw [hl] at h1; exact absurd rfl h1
        have happ : (pool ++ [(rt.domain, ListenerEntry.mk rt.listenPort rt.port)]).lookup
            rt.domain = some (ListenerEntry.mk rt.listenPort rt.port) := by
          rw [lookup_append_of_none hnone]
          exact lookup_single_self _ _
        have hres := startListeners_preserves_some canBind rest happ
        exact Option.isSome_iff_exists.mpr ⟨_, hres⟩
    · by_cases ht : (a.rtype != "tcp") = true
      · rw [if_pos ht]; exact ih hmem'
      · rw [if_neg ht]; exact ih hmem'

theorem startListeners_first_open (canBind : BindOracle) {pre post : List Route}
    {rt : Route} {pool : TCPPool} {d : String}
    (hnone : pool.lookup d = none)
    (hpre : ∀ rt' ∈ pre, (rt'.rtype == "tcp" && rt'.domain == d) = false)
    (htcp : rt.rtype = "tcp") (hdom : rt.domain = d)
    (hlp : rt.listenPort ≠ 0) (hbind : canBind rt.listenPort = true) :
    (startTCPListeners canBind (pre ++ rt :: post) pool).lookup d =
      some (ListenerEntry.mk rt.listenPort rt.port) := by
  have hP : (startTCPListeners canBind pre pool).lookup d = none := by
    rw [startListeners_no_domain canBind pre hpre]
    exact hnone
  have hstep : startTCPListenerLocked canBind (startTCPListeners canBind pre pool) rt =
      startTCPListeners canBind pre pool ++
        [(rt.domain, ListenerEntry.mk rt.listenPort rt.port)] := by
    unfold startTCPListenerLocked
    rw [if_neg (by simp [hlp]), if_neg (by rw [hdom, hP]; simp), if_pos hbind]
  have happ : (startTCPListeners canBind pre pool ++
      [(rt.domain, ListenerEntry.mk rt.listenPort rt.port)]).lookup d =
      some (ListenerEntry.mk rt.listenPort rt.port) := by
    rw [lookup_append_of_none hP, hdom]
    exact lookup_single_self _ _
  have hmain : startTCPListeners canBind (pre ++ rt :: post) pool =
      startTCPListeners canBind post (startTCPListenerLocked canBind
        (startTCPListeners canBind pre pool) rt) := by
    unfold startTCPListeners
    rw [List.foldl_append, List.foldl_cons, if_neg (by simp [htcp])]
  rw [hmain, hstep]
  exact startListeners_preserves_some canBind post happ

theorem lookup_filter_key_true {l : TCPPool} {f : String × ListenerEntry → Bool} {d : String}
    (h : ∀ e : ListenerEntry, f (d, e) = true) : (l.filter f).lookup d = l.lookup d := by
  induction l with
  | nil => rfl
  | cons p t ih =>
    rw [List.filter_cons]
    by_cases hf : f p = true
    · rw [if_pos hf]
      simp only [List.lookup]
      cases hk : (d == p.1) with
      | true => rfl
      | false => exact ih
    · rw [if_neg hf]
      simp only [List.lookup]
      cases hk : (d == p.1) with
      | true =>
        exfalso
        have hdp : d = p.1 := by simpa using hk
        apply hf
        have : f (d, p.2) = true := h p.2
        rw [hdp] at this
        exact this
      | false => exact ih

theorem reconcile_inactive_lookup_none (canBind : BindOracle) (routes2 : List Route)
    (p : TCPPool) {d : String} (hin : isActiveTCPDomain routes2 d = false) :
    (reconcileTCPListeners canBind routes2 p).lookup d = none := by
  have hall : ∀ rt ∈ routes2, (rt.rtype == "tcp" && rt.domain == d) = false := by
    have hx := hin
    unfold isActiveTCPDomain at hx
    rw [List.any_eq_false] at hx
    exact fun rt hrt => by simpa using hx rt hrt
  have hfilter : (p.filter (fun e => isActiveTCPDomain routes2 e.1)).lookup d = none :=
    lookup_filter_key_false (fun e => hin)
  unfold reconcileTCPListeners
  rw [startListeners_no_domain canBind routes2 hall]
  exact hfilter

/-- C5: after every reconciler run following a successful route reload:
every pool listener whose domain is not among the current tcp routes'
domains is closed and removed; every tcp route with a non-zero listen
port whose bind succeeds ends with a pool entry for its domain, while a
route all of whose binds fail (or whose port is zero) leaves the pool
without an entry for that host; and a tick without a forward
modification-time change leaves the whole state — hence the pool —
untouched, so failed opens are not retried until the next change. -/
theorem reconcile_and_watch_correct (canBind : BindOracle) (routes : List Route)
    (pool : TCPPool) :
    (∀ d, isActiveTCPDomain routes d = false →
      (reconcileTCPListeners canBind routes pool).lookup d = none ∧
      ∀ e, pool.lookup d = some e → (d, e) ∈ reconcileClosed routes pool) ∧
    (∀ rt ∈ routes, rt.rtype = "tcp" → rt.listenPort ≠ 0 → canBind rt.listenPort = true →
      ((reconcileTCPListeners canBind routes pool).lookup rt.domain).isSome = true) ∧
    (∀ d, pool.lookup d = none →
      (∀ rt ∈ routes, rt.rtype = "tcp" → rt.domain = d →
        rt.listenPort = 0 ∨ canBind rt.listenPort = false) →
      (reconcileTCPListeners canBind routes pool).lookup d = none) ∧
    (∀ (st : WatchState) (mtime : Nat) (read : ReadResult), ¬st.lastMod < mtime →
      watchTick canBind st (FileObs.present mtime read) = st) ∧
    (∀ st : WatchState, watchTick canBind st FileObs.statErr = st) := by
  refine ⟨?_, ?_, ?_, ?_, fun st => rfl⟩
  · intro d hin
    refine ⟨reconcile_inactive_lookup_none canBind routes pool hin, ?_⟩
    intro e he
    exact List.mem_filter.mpr ⟨mem_of_lookup_some he, by simp [hin]⟩
  · intro rt hmem htcp hlp hbind
    exact startListeners_opens canBind routes hmem htcp hlp hbind
  · intro d hnone hfail
    unfold reconcileTCPListeners
    exact startListeners_none_of_fail canBind routes (lookup_filter_none hnone) hfail
  · intro st mtime read hmt
    simp only [watchTick]
    rw [if_neg hmt]

/-- Witness for C5: one tcp route replacing a stale listener; the stale
domain is gone from the pool and the new domain is present. -/
theorem reconcile_and_watch_correct_witness :
    (reconcileTCPListeners (fun _ => true) [Route.mk "db.test" 5432 15432 "tcp"]
      [("old.test", ListenerEntry.mk 1 2)]).lookup "old.test" = none ∧
    ((reconcileTCPListeners (fun _ => true) [Route.mk "db.test" 5432 15432 "tcp"]
      [("old.test", ListenerEntry.mk 1 2)]).lookup "db.test").isSome = true := by
  have h := reconcile_and_watch_correct (fun _ => true)
    [Route.mk "db.test" 5432 15432 "tcp"] [("old.test", ListenerEntry.mk 1 2)]
  exact ⟨(h.1 "old.test" (by decide)).1,
    h.2.1 (Route.mk "db.test" 5432 15432 "tcp") (by simp) rfl (by decide) rfl⟩

/-- C6: when the reload fails — malformed JSON or a read error other
than not-found — the route table is exactly the previous snapshot and
the reconciler is skipped for that tick (the pool is untouched); a
missing file is skipped at the stat, a file vanishing between stat and
read or a zero-length file likewise leaves the table unchanged. -/
theorem watch_bad_file_keeps_snapshot (canBind : BindOracle) (st : WatchState)
    (mtime : Nat) (hmt : st.lastMod < mtime) :
    ((watchTick canBind st (FileObs.present mtime ReadResult.malformed)).routes = st.routes ∧
     (watchTick canBind st (FileObs.present mtime ReadResult.malformed)).pool = st.pool) ∧
    ((watchTick canBind st (FileObs.present mtime ReadResult.readErr)).routes = st.routes ∧
     (watchTick canBind st (FileObs.present mtime ReadResult.readErr)).pool = st.pool) ∧
    watchTick canBind st FileObs.statErr = st ∧
    loadRoutes st.routes ReadResult.notExist = some st.routes ∧
    loadRoutes st.routes ReadResult.empty = some st.routes ∧
    (watchTick canBind st (FileObs.present mtime ReadResult.empty)).routes = st.routes := by
  refine ⟨⟨?_, ?_⟩, ⟨?_, ?_⟩, rfl, rfl, rfl, ?_⟩ <;>
  · simp only [watchTick]
    rw [if_pos hmt]
    rfl

/-- Witness for C6: a malformed reload keeps the one configured route. -/
theorem watch_bad_file_keeps_snapshot_witness :
    (watchTick (fun _ => true) (WatchState.mk 0 [Route.mk "a.test" 3000 0 "http"] [])
      (FileObs.present 5 ReadResult.malformed)).routes =
      [Route.mk "a.test" 3000 0 "http"] ∧
    (watchTick (fun _ => true) (WatchState.mk 0 [Route.mk "a.test" 3000 0 "http"] [])
      (FileObs.present 5 ReadResult.malformed)).pool = [] := by
  have h := watch_bad_file_keeps_snapshot (fun _ => true)
    (WatchState.mk 0 [Route.mk "a.test" 3000 0 "http"] []) 5 (by decide)
  exact ⟨h.1.1, h.1.2⟩

/-- C10: the pool is keyed by domain only.  While a domain stays in the
tcp route set, its existing entry — with the listen and upstream ports
bound when it was opened — survives every reconcile pass unchanged, and
the open attempt for that domain is a no-op; the entry disappears only
in a pass whose tcp set omits the domain, after which a pass containing
the (re-ported) route opens a fresh listener with the new ports. -/
theorem reconcile_pool_keyed_by_domain (canBind : BindOracle) (routes : List Route)
    (pool : TCPPool) (d : String) (e : ListenerEntry) (rt : Route)
    (hpool : pool.lookup d = some e)
    (htcp : rt.rtype = "tcp") (hdom : rt.domain = d) (hmem : rt ∈ routes) :
    (reconcileTCPListeners canBind routes pool).lookup d = some e ∧
    startTCPListenerLocked canBind pool rt = pool ∧
    (∀ routes2, isActiveTCPDomain routes2 d = false →
      (reconcileTCPListeners canBind routes2
        (reconcileTCPListeners canBind routes pool)).lookup d = none) ∧
    (∀ (pool2 : TCPPool) (pre post : List Route), pool2.lookup d = none →
      routes = pre ++ rt :: post →
      (∀ rt' ∈ pre, (rt'.rtype == "tcp" && rt'.domain == d) = false) →
      rt.listenPort ≠ 0 → canBind rt.listenPort = true →
      (reconcileTCPListeners canBind routes pool2).lookup d =
        some (ListenerEntry.mk rt.listenPort rt.port)) := by
  have hactive : isActiveTCPDomain routes d = true := by
    unfold isActiveTCPDomain
    rw [List.any_eq_true]
    exact ⟨rt, hmem, by simp [htcp, hdom]⟩
  refine ⟨?_, ?_, ?_, ?_⟩
  · unfold reconcileTCPListeners
    apply startListeners_preserves_some
    rw [lookup_filter_key_true (fun e' => hactive)]
    exact hpool
  · unfold startTCPListenerLocked
    by_cases h0 : (rt.listenPort == 0) = true
    · rw [if_pos h0]
    · rw [if_neg h0, if_pos (by rw [hdom, hpool]; rfl)]
  · intro routes2 hin
    exact reconcile_inactive_lookup_none canBind routes2 _ hin
  · intro pool2 pre post hnone2 hsplit hpre hlp hbind
    unfold reconcileTCPListeners
    rw [hsplit]
    exact startListeners_first_open canBind (lookup_filter_none hnone2) hpre htcp hdom hlp hbind

/-- Witness for C10: after a port change the old entry (bound ports 1000
and 2000) survives; after a removal pass and a re-add pass the entry
carries the new ports. -/
theorem reconcile_pool_keyed_by_domain_witness :
    (reconcileTCPListeners (fun _ => true) [Route.mk "db.test" 5433 15433 "tcp"]
      [("db.test", ListenerEntry.mk 1000 2000)]).lookup "db.test" =
      some (ListenerEntry.mk 1000 2000) ∧
    (reconcileTCPListeners (fun _ => true) [Route.mk "db.test" 5433 15433 "tcp"]
      (reconcileTCPListeners (fun _ => true) []
        (reconcileTCPListeners (fun _ => true) [Route.mk "db.test" 5433 15433 "tcp"]
          [("db.test", ListenerEntry.mk 1000 2000)]))).lookup "db.test" =
      some (ListenerEntry.mk 15433 5433) := by
  have h := reconcile_pool_keyed_by_domain (fun _ => true)
    [Route.mk "db.test" 5433 15433 "tcp"] [("db.test", ListenerEntry.mk 1000 2000)]
    "db.test" (ListenerEntry.mk 1000 2000) (Route.mk "db.test" 5433 15433 "tcp")
    rfl rfl rfl (by simp)
  refine ⟨h.1, ?_⟩
  have hremoved := h.2.2.1 [] (by decide)
  exact h.2.2.2 _ [] [] hremoved rfl (by simp) (by decide) rfl

/-! ### Executable substring check

A Bool-level decision procedure for `strContainsSub`, used to evaluate
containment at concrete inputs. -/

def startsWithChars : List Char → List Char → Bool
  | _, [] => true
  | [], _ :: _ => false
  | b :: l', a :: p' => a == b && startsWithChars l' p'

def containsChars : List Char → List Char → Bool
  | [], p => p.isEmpty
  | b :: l', p => startsWithChars (b :: l') p || containsChars l' p

def strContainsSubB (s sub : String) : Bool :=
  containsChars s.data sub.data

theorem startsWithChars_iff (p : List Char) :
    ∀ l, startsWithChars l p = true ↔ ∃ post, l = p ++ post := by
  induction p with
  | nil =>
    intro l
    simp [startsWithChars]
  | cons a p' ih =>
    intro l
    cases l with
    | nil =>
      constructor
      · intro h
        exact Bool.noConfusion h
      · rintro ⟨post, hpost⟩
        exact List.noConfusion hpost
    | cons b l' =>
      show (a == b && startsWithChars l' p') = true ↔ _
      rw [Bool.and_eq_true, beq_iff_eq, ih l']
      constructor
      · rintro ⟨hab, post, hpost⟩
        exact ⟨post, by rw [List.cons_append, ← hab, hpost]⟩
      · rintro ⟨post, hpost⟩
        rw [List.cons_append] at hpost
        injection hpost with h1 h2
        exact ⟨h1.symm, post, h2⟩

theorem containsChars_iff (l p : List Char) :
    containsChars l p = true ↔ ∃ pre post, l = pre ++ p ++ post := by
  induction l with
  | nil =>
    cases p with
    | nil =>
      constructor
      · intro _
        exact ⟨[], [], rfl⟩
      · intro _
        rfl
    | cons a p' =>
      constructor
      · intro h
        exact Bool.noConfusion h
      · rintro ⟨pre, post, hpost⟩
        exact absurd hpost (by simp)
  | cons b l' ih =>
    show (startsWithChars (b :: l') p || containsChars l' p) = true ↔ _
    rw [Bool.or_eq_true, startsWithChars_iff, ih]
    constructor
    · rintro (⟨post, hpost⟩ | ⟨pre, post, hpost⟩)
      · exact ⟨[], post, by simpa using hpost⟩
      · exact ⟨b :: pre, post, by simp [hpost]⟩
    · rintro ⟨pre, post, hpost⟩
      cases pre with
      | nil => exact Or.inl ⟨post, by simpa using hpost⟩
      | cons c pre' =>
        right
        rw [List.append_assoc, List.cons_append] at hpost
        injection hpost with h1 h2
        exact ⟨pre', post, by rw [h2, List.append_assoc]⟩

theorem strContainsSub_iff_check (s sub : String) :
    strContainsSub s sub ↔ strContainsSubB s sub = true :=
  (containsChars_iff s.data sub.data).symm

set_option maxRecDepth 40000 in
/-- C1 counterexample: with a registered route whose domain contains an
HTML-special character, the 404 page is still served but its body does
not contain the raw domain string — `html/template` escapes it — so the
body holds only the escaped form. -/
theorem notFound_body_escapes_domain_counterexample :
    handleHTTP [Route.mk "a&b.test" 3000 0 "http"]
      (HTTPRequest.mk "x.test" [] "127.0.0.1:50000") =
      HTTPOutcome.notFound 404
        (renderNotFound "x.test" [Route.mk "a&b.test" 3000 0 "http"]) ∧
    ¬strContainsSub (renderNotFound "x.test" [Route.mk "a&b.test" 3000 0 "http"])
      "a&b.test" ∧
    strContainsSub (renderNotFound "x.test" [Route.mk "a&b.test" 3000 0 "http"])
      "a&amp;b.test" := by
  refine ⟨rfl, ?_, ?_⟩
  · rw [strContainsSub_iff_check]
    decide
  · rw [strContainsSub_iff_check]
    decide
